import Mathlib

set_option maxHeartbeats 1000000
set_option maxRecDepth 4000

/-!
PackStream codec and PyO3 binding scaffolding: a shallow embedding.

The repository's `src/` holds the binding scaffolding (`lib.rs`, `codec.rs`);
the codec engine itself is not among the provided sources, so the engine
definitions below are modelled from the specification (each such definition
says so in its doc comment).  Bytes are modelled as `Nat` (values `< 256` on
the wire), machine integers as `Int`/`Nat` with explicit ranges.
-/

namespace PackStream

/-- Modelled from the spec: the 32-bit length tier bound `2 ^ 32 - 1`
(`String/Bytes/List/Map lengths at most 2^32-1`). -/
def maxLen : Nat := 4294967295

/-- Modelled from the spec: the decoder's documented nesting-depth policy
constant (the spec leaves the exact number open; `1024` is the conservative,
documented choice used throughout this development). -/
def depthLimit : Nat := 1024

/-- Big-endian byte list of width `w` representing `n % 2 ^ (8 * w)`. -/
def beBytes : Nat → Nat → List Nat
  | 0, _ => []
  | w + 1, n => (n / 256 ^ w) % 256 :: beBytes w n

/-- Big-endian unsigned interpretation of a byte list. -/
def beJoin : List Nat → Nat
  | [] => 0
  | b :: bs => b * 256 ^ bs.length + beJoin bs

/-- Unsigned (two's-complement) image of a signed integer at width `w` bytes. -/
def toUnsigned (w : Nat) (i : Int) : Nat := (i % ((2 : Int) ^ (8 * w))).toNat

/-- Sign extension of a `w`-byte big-endian unsigned value
(decode must sign-extend, never zero-extend). -/
def toSigned (w : Nat) (raw : Nat) : Int :=
  if raw < 2 ^ (8 * w - 1) then (raw : Int) else (raw : Int) - 2 ^ (8 * w)

/-- Modelled from the spec: the Value data model, a closed tagged union.
`float` carries the IEEE-754 bit pattern (64 bits), `string` its UTF-8 bytes,
map entries are ordered `(key bytes, value)` pairs, structures carry a one-byte
tag and ordered fields. -/
inductive Value where
  | null
  | bool (b : Bool)
  | int (i : Int)
  | float (bits : Nat)
  | bytes (bs : List Nat)
  | string (s : List Nat)
  | list (vs : List Value)
  | map (kvs : List (List Nat × Value))
  | struct (tag : Nat) (fields : List Value)

/-- Modelled from the spec: encode-side failures, a distinct error value for
over-large lengths and one for over-large structure field counts. -/
inductive EncodeError where
  | valueTooLarge
  | tooManyFields
deriving DecidableEq

/-- Reasons carried by `DecodeError.malformed`. -/
inductive MalformedReason where
  | unknownMarker
  | unexpectedEndMarker
  | tooDeep
  | invalidMapKey
  | noProgress
deriving DecidableEq

/-- Modelled from the spec: decode-side results other than success:
`needMoreInput` is the incremental-continuation signal, `malformed` a hard
rejection. -/
inductive DecodeError where
  | needMoreInput
  | malformed (reason : MalformedReason)
deriving DecidableEq

/-- Modelled from the spec: the length header for the container-like families
(tiny inline form, then 8, 16 and 32 bit explicit length forms); a length above
the 32-bit tier is a `valueTooLarge` error. -/
def lenHeader (tinyBase m8 m16 m32 : Nat) (n : Nat) : Except EncodeError (List Nat) :=
  if n ≤ 15 then .ok [tinyBase + n]
  else if n ≤ 255 then .ok (m8 :: beBytes 1 n)
  else if n ≤ 65535 then .ok (m16 :: beBytes 2 n)
  else if n ≤ maxLen then .ok (m32 :: beBytes 4 n)
  else .error .valueTooLarge

/-- Modelled from the spec: encoding of a String's UTF-8 bytes (also used for
map keys): length header in the `0x80`/`0xD0`/`0xD1`/`0xD2` family, then the
raw bytes. -/
def encodeStringBytes (s : List Nat) : Except EncodeError (List Nat) :=
  match lenHeader 0x80 0xD0 0xD1 0xD2 s.length with
  | .error e => .error e
  | .ok hdr => .ok (hdr ++ s)

/-- Modelled from the spec: minimal-width integer encoding.  The tiny forms
(value packed in the marker byte) cover `-16..127`; otherwise the narrowest of
the 8, 16, 32 and 64 bit signed big-endian forms is chosen. -/
def encodeInt (i : Int) : List Nat :=
  if -16 ≤ i ∧ i ≤ 127 then [toUnsigned 1 i]
  else if -128 ≤ i ∧ i ≤ 127 then 0xC8 :: beBytes 1 (toUnsigned 1 i)
  else if -32768 ≤ i ∧ i ≤ 32767 then 0xC9 :: beBytes 2 (toUnsigned 2 i)
  else if -2147483648 ≤ i ∧ i ≤ 2147483647 then 0xCA :: beBytes 4 (toUnsigned 4 i)
  else 0xCB :: beBytes 8 (toUnsigned 8 i)

mutual

/-- Modelled from the spec: the Encoder.  Dispatch on the value kind, emit the
canonical marker, big-endian size field and payload; recursively encode
containers; fail with `valueTooLarge` / `tooManyFields` exactly on the format's
representable-range limits. -/
def encodeValue : Value → Except EncodeError (List Nat)
  | .null => .ok [0xC0]
  | .bool false => .ok [0xC2]
  | .bool true => .ok [0xC3]
  | .int i => .ok (encodeInt i)
  | .float bits => .ok (0xC1 :: beBytes 8 bits)
  | .bytes bs =>
    match lenHeader 0xE0 0xCC 0xCD 0xCE bs.length with
    | .error e => .error e
    | .ok hdr => .ok (hdr ++ bs)
  | .string s => encodeStringBytes s
  | .list vs =>
    match lenHeader 0x90 0xD4 0xD5 0xD6 vs.length with
    | .error e => .error e
    | .ok hdr =>
      match encodeList vs with
      | .error e => .error e
      | .ok body => .ok (hdr ++ body)
  | .map kvs =>
    match lenHeader 0xA0 0xD8 0xD9 0xDA kvs.length with
    | .error e => .error e
    | .ok hdr =>
      match encodePairs kvs with
      | .error e => .error e
      | .ok body => .ok (hdr ++ body)
  | .struct tag fields =>
    if fields.length ≤ 15 then
      match encodeList fields with
      | .error e => .error e
      | .ok body => .ok ((0xB0 + fields.length) :: tag :: body)
    else .error .tooManyFields

/-- Concatenated encodings of a list of values (first failure wins). -/
def encodeList : List Value → Except EncodeError (List Nat)
  | [] => .ok []
  | v :: vs =>
    match encodeValue v with
    | .error e => .error e
    | .ok b =>
      match encodeList vs with
      | .error e => .error e
      | .ok bs => .ok (b ++ bs)

/-- Concatenated encodings of map entries: key as a String, then the value. -/
def encodePairs : List (List Nat × Value) → Except EncodeError (List Nat)
  | [] => .ok []
  | (k, v) :: ps =>
    match encodeStringBytes k with
    | .error e => .error e
    | .ok kb =>
      match encodeValue v with
      | .error e => .error e
      | .ok vb =>
        match encodePairs ps with
        | .error e => .error e
        | .ok rest => .ok (kb ++ vb ++ rest)

end

/-- Modelled from the spec: streaming encode entry point `begin_list`
(emits the unknown-length list marker immediately). -/
def beginList (sink : List Nat) : List Nat := sink ++ [0xD7]

/-- Modelled from the spec: streaming encode entry point `begin_map`. -/
def beginMap (sink : List Nat) : List Nat := sink ++ [0xDB]

/-- Modelled from the spec: streaming encode entry point `append`
(interleaves the element's encoding as it arrives). -/
def appendElem (sink : List Nat) (v : Value) : Except EncodeError (List Nat) :=
  match encodeValue v with
  | .error e => .error e
  | .ok b => .ok (sink ++ b)

/-- Modelled from the spec: streaming encode entry point `end_list`
(emits the sentinel end-of-stream marker on close). -/
def endList (sink : List Nat) : List Nat := sink ++ [0xDF]

/-- Streaming-API encoding of a whole list: `begin_list`, `append` each
element in order, `end_list`. -/
def streamEncodeList (vs : List Value) : Except EncodeError (List Nat) :=
  match vs.foldlM appendElem (beginList []) with
  | .error e => .error e
  | .ok sink => .ok (endList sink)

/-- Reads a sized String/Bytes payload: `w`-byte big-endian length, then that
many payload bytes; truncation yields `needMoreInput`. -/
def readSized (w : Nat) (rest : List Nat) (mk : List Nat → Value) :
    Except DecodeError (Value × Nat) :=
  if w ≤ rest.length then
    let n := beJoin (rest.take w)
    if n ≤ (rest.drop w).length then .ok (mk ((rest.drop w).take n), 1 + w + n)
    else .error .needMoreInput
  else .error .needMoreInput

mutual

/-- Modelled from the spec: the Decoder.  Reads one marker byte, dispatches on
the marker table, reads the rule-determined size field and payload, recursing
into containers with an explicit depth counter (`tooDeep` once exhausted).
Returns the decoded value and the number of bytes consumed; truncated input
yields `needMoreInput`. -/
def decodeValue (d : Nat) (input : List Nat) : Except DecodeError (Value × Nat) :=
  match input with
  | [] => .error .needMoreInput
  | m :: rest =>
    if m ≤ 0x7F then .ok (.int (m : Int), 1)
    else if 0xF0 ≤ m ∧ m ≤ 0xFF then .ok (.int ((m : Int) - 256), 1)
    else if 0x80 ≤ m ∧ m ≤ 0x8F then
      if m - 0x80 ≤ rest.length then .ok (.string (rest.take (m - 0x80)), 1 + (m - 0x80))
      else .error .needMoreInput
    else if 0x90 ≤ m ∧ m ≤ 0x9F then
      if h : d = 0 then .error (.malformed .tooDeep)
      else
        match decodeElems (d - 1) (m - 0x90) rest with
        | .error e => .error e
        | .ok (vs, k) => .ok (.list vs, 1 + k)
    else if 0xA0 ≤ m ∧ m ≤ 0xAF then
      if h : d = 0 then .error (.malformed .tooDeep)
      else
        match decodePairs (d - 1) (m - 0xA0) rest with
        | .error e => .error e
        | .ok (ps, k) => .ok (.map ps, 1 + k)
    else if 0xB0 ≤ m ∧ m ≤ 0xBF then
      if rest.length = 0 then .error .needMoreInput
      else if h : d = 0 then .error (.malformed .tooDeep)
      else
        match decodeElems (d - 1) (m - 0xB0) rest.tail with
        | .error e => .error e
        | .ok (fs, k) => .ok (.struct (rest.headD 0) fs, 2 + k)
    else if 0xE0 ≤ m ∧ m ≤ 0xEF then
      if m - 0xE0 ≤ rest.length then .ok (.bytes (rest.take (m - 0xE0)), 1 + (m - 0xE0))
      else .error .needMoreInput
    else if m = 0xC0 then .ok (.null, 1)
    else if m = 0xC1 then
      if 8 ≤ rest.length then .ok (.float (beJoin (rest.take 8)), 9)
      else .error .needMoreInput
    else if m = 0xC2 then .ok (.bool false, 1)
    else if m = 0xC3 then .ok (.bool true, 1)
    else if m = 0xC8 then
      if 1 ≤ rest.length then .ok (.int (toSigned 1 (beJoin (rest.take 1))), 2)
      else .error .needMoreInput
    else if m = 0xC9 then
      if 2 ≤ rest.length then .ok (.int (toSigned 2 (beJoin (rest.take 2))), 3)
      else .error .needMoreInput
    else if m = 0xCA then
      if 4 ≤ rest.length then .ok (.int (toSigned 4 (beJoin (rest.take 4))), 5)
      else .error .needMoreInput
    else if m = 0xCB then
      if 8 ≤ rest.length then .ok (.int (toSigned 8 (beJoin (rest.take 8))), 9)
      else .error .needMoreInput
    else if m = 0xCC then readSized 1 rest .bytes
    else if m = 0xCD then readSized 2 rest .bytes
    else if m = 0xCE then readSized 4 rest .bytes
    else if m = 0xD0 then readSized 1 rest .string
    else if m = 0xD1 then readSized 2 rest .string
    else if m = 0xD2 then readSized 4 rest .string
    else if m = 0xD4 then
      if h : d = 0 then .error (.malformed .tooDeep)
      else if 1 ≤ rest.length then
        match decodeElems (d - 1) (beJoin (rest.take 1)) (rest.drop 1) with
        | .error e => .error e
        | .ok (vs, k) => .ok (.list vs, 2 + k)
      else .error .needMoreInput
    else if m = 0xD5 then
      if h : d = 0 then .error (.malformed .tooDeep)
      else if 2 ≤ rest.length then
        match decodeElems (d - 1) (beJoin (rest.take 2)) (rest.drop 2) with
        | .error e => .error e
        | .ok (vs, k) => .ok (.list vs, 3 + k)
      else .error .needMoreInput
    else if m = 0xD6 then
      if h : d = 0 then .error (.malformed .tooDeep)
      else if 4 ≤ rest.length then
        match decodeElems (d - 1) (beJoin (rest.take 4)) (rest.drop 4) with
        | .error e => .error e
        | .ok (vs, k) => .ok (.list vs, 5 + k)
      else .error .needMoreInput
    else if m = 0xD7 then
      if h : d = 0 then .error (.malformed .tooDeep)
      else
        match decodeStreamElems (d - 1) rest.length rest with
        | .error e => .error e
        | .ok (vs, k) => .ok (.list vs, 1 + k)
    else if m = 0xD8 then
      if h : d = 0 then .error (.malformed .tooDeep)
      else if 1 ≤ rest.length then
        match decodePairs (d - 1) (beJoin (rest.take 1)) (rest.drop 1) with
        | .error e => .error e
        | .ok (ps, k) => .ok (.map ps, 2 + k)
      else .error .needMoreInput
    else if m = 0xD9 then
      if h : d = 0 then .error (.malformed .tooDeep)
      else if 2 ≤ rest.length then
        match decodePairs (d - 1) (beJoin (rest.take 2)) (rest.drop 2) with
        | .error e => .error e
        | .ok (ps, k) => .ok (.map ps, 3 + k)
      else .error .needMoreInput
    else if m = 0xDA then
      if h : d = 0 then .error (.malformed .tooDeep)
      else if 4 ≤ rest.length then
        match decodePairs (d - 1) (beJoin (rest.take 4)) (rest.drop 4) with
        | .error e => .error e
        | .ok (ps, k) => .ok (.map ps, 5 + k)
      else .error .needMoreInput
    else if m = 0xDB then
      if h : d = 0 then .error (.malformed .tooDeep)
      else
        match decodeStreamPairs (d - 1) rest.length rest with
        | .error e => .error e
        | .ok (ps, k) => .ok (.map ps, 1 + k)
    else if m = 0xDF then .error (.malformed .unexpectedEndMarker)
    else .error (.malformed .unknownMarker)
termination_by (d, 0, 0)

/-- Decodes exactly `n` consecutive values (a declared-length container body). -/
def decodeElems (d : Nat) (n : Nat) (input : List Nat) :
    Except DecodeError (List Value × Nat) :=
  if h : n = 0 then .ok ([], 0)
  else
    match decodeValue d input with
    | .error e => .error e
    | .ok (v, k) =>
      match decodeElems d (n - 1) (input.drop k) with
      | .error e => .error e
      | .ok (vs, k2) => .ok (v :: vs, k + k2)
termination_by (d, n, 1)

/-- Decodes exactly `n` consecutive key-value pairs; keys must decode to
Strings. -/
def decodePairs (d : Nat) (n : Nat) (input : List Nat) :
    Except DecodeError (List (List Nat × Value) × Nat) :=
  if h : n = 0 then .ok ([], 0)
  else
    match decodeValue d input with
    | .error e => .error e
    | .ok (.string s, k1) =>
      match decodeValue d (input.drop k1) with
      | .error e => .error e
      | .ok (v, k2) =>
        match decodePairs d (n - 1) (input.drop (k1 + k2)) with
        | .error e => .error e
        | .ok (ps, k3) => .ok ((s, v) :: ps, k1 + k2 + k3)
    | .ok (_, _) => .error (.malformed .invalidMapKey)
termination_by (d, n, 1)

/-- Decodes streamed list elements until the sentinel end marker.  The budget
`c` (initially the remaining input length) bounds the loop; it cannot run out
before the input does because every element consumes at least one byte. -/
def decodeStreamElems (d : Nat) (c : Nat) (input : List Nat) :
    Except DecodeError (List Value × Nat) :=
  match input with
  | [] => .error .needMoreInput
  | b :: rest =>
    if b = 0xDF then .ok ([], 1)
    else if h : c = 0 then .error (.malformed .noProgress)
    else
      match decodeValue d (b :: rest) with
      | .error e => .error e
      | .ok (v, k) =>
        match decodeStreamElems d (c - 1) ((b :: rest).drop k) with
        | .error e => .error e
        | .ok (vs, k2) => .ok (v :: vs, k + k2)
termination_by (d, c, 2)

/-- Decodes streamed map pairs until the sentinel end marker. -/
def decodeStreamPairs (d : Nat) (c : Nat) (input : List Nat) :
    Except DecodeError (List (List Nat × Value) × Nat) :=
  match input with
  | [] => .error .needMoreInput
  | b :: rest =>
    if b = 0xDF then .ok ([], 1)
    else if h : c = 0 then .error (.malformed .noProgress)
    else
      match decodeValue d (b :: rest) with
      | .error e => .error e
      | .ok (.string s, k1) =>
        match decodeValue d ((b :: rest).drop k1) with
        | .error e => .error e
        | .ok (v, k2) =>
          match decodeStreamPairs d (c - 1) ((b :: rest).drop (k1 + k2)) with
          | .error e => .error e
          | .ok (ps, k3) => .ok ((s, v) :: ps, k1 + k2 + k3)
      | .ok (_, _) => .error (.malformed .invalidMapKey)
termination_by (d, c, 2)

end

/-- Modelled from the spec: the public decode entry point
`decode(byte source) -> (Value, bytes consumed) | NeedMoreInput | MalformedInput`,
running the marker-dispatch decoder at the documented depth bound. -/
def decode (input : List Nat) : Except DecodeError (Value × Nat) :=
  decodeValue depthLimit input

mutual

/-- Machine-representability of a Value, as fixed by the spec's data model
types: integers are 64-bit signed, float bit patterns are 64 bits wide,
structure tags a single unsigned byte. -/
def typeOk : Value → Bool
  | .null => true
  | .bool _ => true
  | .int i => decide (-9223372036854775808 ≤ i ∧ i ≤ 9223372036854775807)
  | .float bits => decide (bits ≤ 18446744073709551615)
  | .bytes _ => true
  | .string _ => true
  | .list vs => typeOkList vs
  | .map kvs => typeOkPairs kvs
  | .struct tag fs => decide (tag ≤ 255) && typeOkList fs

/-- `typeOk` for each element of a list. -/
def typeOkList : List Value → Bool
  | [] => true
  | v :: vs => typeOk v && typeOkList vs

/-- `typeOk` for each value of a pair list. -/
def typeOkPairs : List (List Nat × Value) → Bool
  | [] => true
  | (_, v) :: ps => typeOk v && typeOkPairs ps

end

mutual

/-- The spec's size invariants: String/Bytes lengths and List/Map element
counts at most `2 ^ 32 - 1` (map keys being Strings as well) and structure
field counts at most 15, recursively. -/
def sizeOkV : Value → Bool
  | .null => true
  | .bool _ => true
  | .int _ => true
  | .float _ => true
  | .bytes bs => decide (bs.length ≤ maxLen)
  | .string s => decide (s.length ≤ maxLen)
  | .list vs => decide (vs.length ≤ maxLen) && sizeOkList vs
  | .map kvs => decide (kvs.length ≤ maxLen) && sizeOkPairs kvs
  | .struct _ fs => decide (fs.length ≤ 15) && sizeOkList fs

/-- `sizeOkV` for each element of a list. -/
def sizeOkList : List Value → Bool
  | [] => true
  | v :: vs => sizeOkV v && sizeOkList vs

/-- `sizeOkV` for each pair of a map body, keys bounded like Strings. -/
def sizeOkPairs : List (List Nat × Value) → Bool
  | [] => true
  | (k, v) :: ps => decide (k.length ≤ maxLen) && sizeOkV v && sizeOkPairs ps

end

mutual

/-- Container-nesting depth of a Value (leaves at depth zero). -/
def depthOf : Value → Nat
  | .null => 0
  | .bool _ => 0
  | .int _ => 0
  | .float _ => 0
  | .bytes _ => 0
  | .string _ => 0
  | .list vs => depthList vs + 1
  | .map kvs => depthPairs kvs + 1
  | .struct _ fs => depthList fs + 1

/-- Maximum depth over a list of values. -/
def depthList : List Value → Nat
  | [] => 0
  | v :: vs => max (depthOf v) (depthList vs)

/-- Maximum depth over the values of a pair list. -/
def depthPairs : List (List Nat × Value) → Nat
  | [] => 0
  | (_, v) :: ps => max (depthOf v) (depthPairs ps)

end

theorem beBytes_length (w n : Nat) : (beBytes w n).length = w := by
  induction w generalizing n with
  | zero => rfl
  | succ w ih => simp [beBytes, ih]

theorem beJoin_beBytes (w n : Nat) : beJoin (beBytes w n) = n % 256 ^ w := by
  induction w generalizing n with
  | zero => simp [beBytes, beJoin, Nat.mod_one]
  | succ w ih =>
    rw [beBytes, beJoin, beBytes_length, ih, pow_succ, Nat.mod_mul]
    ring

theorem beJoin_beBytes_of_lt (w n : Nat) (h : n < 256 ^ w) :
    beJoin (beBytes w n) = n := by
  rw [beJoin_beBytes, Nat.mod_eq_of_lt h]

theorem toUnsigned_1_eq (i : Int) : toUnsigned 1 i = (i % 256).toNat := by
  unfold toUnsigned
  norm_num

theorem toUnsigned_2_eq (i : Int) : toUnsigned 2 i = (i % 65536).toNat := by
  unfold toUnsigned
  norm_num

theorem toUnsigned_4_eq (i : Int) : toUnsigned 4 i = (i % 4294967296).toNat := by
  unfold toUnsigned
  norm_num

theorem toUnsigned_8_eq (i : Int) : toUnsigned 8 i = (i % 18446744073709551616).toNat := by
  unfold toUnsigned
  norm_num

theorem toSigned_1_eq (raw : Nat) :
    toSigned 1 raw = if raw < 128 then (raw : Int) else (raw : Int) - 256 := by
  unfold toSigned
  norm_num

theorem toSigned_2_eq (raw : Nat) :
    toSigned 2 raw = if raw < 32768 then (raw : Int) else (raw : Int) - 65536 := by
  unfold toSigned
  norm_num

theorem toSigned_4_eq (raw : Nat) :
    toSigned 4 raw =
      if raw < 2147483648 then (raw : Int) else (raw : Int) - 4294967296 := by
  unfold toSigned
  norm_num

theorem toSigned_8_eq (raw : Nat) :
    toSigned 8 raw =
      if raw < 9223372036854775808 then (raw : Int)
      else (raw : Int) - 18446744073709551616 := by
  unfold toSigned
  norm_num

theorem toSigned_toUnsigned_1 (i : Int) (h1 : -128 ≤ i) (h2 : i ≤ 127) :
    toSigned 1 (toUnsigned 1 i) = i := by
  rw [toUnsigned_1_eq, toSigned_1_eq]
  split <;> omega

theorem toSigned_toUnsigned_2 (i : Int) (h1 : -32768 ≤ i) (h2 : i ≤ 32767) :
    toSigned 2 (toUnsigned 2 i) = i := by
  rw [toUnsigned_2_eq, toSigned_2_eq]
  split <;> omega

theorem toSigned_toUnsigned_4 (i : Int) (h1 : -2147483648 ≤ i) (h2 : i ≤ 2147483647) :
    toSigned 4 (toUnsigned 4 i) = i := by
  rw [toUnsigned_4_eq, toSigned_4_eq]
  split <;> omega

theorem toSigned_toUnsigned_8 (i : Int) (h1 : -9223372036854775808 ≤ i)
    (h2 : i ≤ 9223372036854775807) :
    toSigned 8 (toUnsigned 8 i) = i := by
  rw [toUnsigned_8_eq, toSigned_8_eq]
  split <;> omega

theorem toUnsigned_1_lt (i : Int) : toUnsigned 1 i < 256 ^ 1 := by
  rw [toUnsigned_1_eq]
  omega

theorem toUnsigned_2_lt (i : Int) : toUnsigned 2 i < 256 ^ 2 := by
  rw [toUnsigned_2_eq]
  norm_num
  omega

theorem toUnsigned_4_lt (i : Int) : toUnsigned 4 i < 256 ^ 4 := by
  rw [toUnsigned_4_eq]
  norm_num
  omega

theorem toUnsigned_8_lt (i : Int) : toUnsigned 8 i < 256 ^ 8 := by
  rw [toUnsigned_8_eq]
  norm_num
  omega

theorem readSized_prefix (w n : Nat) (payload tail : List Nat) (mk : List Nat → Value)
    (hw : n < 256 ^ w) (hp : payload.length = n) :
    readSized w (beBytes w n ++ (payload ++ tail)) mk = .ok (mk payload, 1 + w + n) := by
  unfold readSized
  rw [List.take_left' (beBytes_length w n), List.drop_left' (beBytes_length w n),
    beJoin_beBytes_of_lt w n hw]
  have hlen : w ≤ (beBytes w n ++ (payload ++ tail)).length := by
    simp [beBytes_length]
  rw [if_pos hlen, if_pos (by simp [hp] : n ≤ (payload ++ tail).length),
    List.take_left' hp]

theorem decodeValue_nil (d : Nat) : decodeValue d [] = .error .needMoreInput := by
  rw [decodeValue.eq_def]

theorem decodeValue_tinyPos (d m : Nat) (rest : List Nat) (h : m ≤ 127) :
    decodeValue d (m :: rest) = .ok (.int (m : Int), 1) := by
  rw [decodeValue.eq_def]
  simp [h]

theorem decodeValue_tinyNeg (d m : Nat) (rest : List Nat) (h1 : 240 ≤ m) (h2 : m ≤ 255) :
    decodeValue d (m :: rest) = .ok (.int ((m : Int) - 256), 1) := by
  have c1 : ¬(m ≤ 127) := by omega
  rw [decodeValue.eq_def]
  simp [c1, h1, h2]

theorem decodeValue_tinyStr (d n : Nat) (rest : List Nat) (h : n ≤ 15) :
    decodeValue d ((128 + n) :: rest) =
      if n ≤ rest.length then .ok (.string (rest.take n), 1 + n)
      else .error .needMoreInput := by
  have c1 : ¬(128 + n ≤ 127) := by omega
  have c2 : ¬(240 ≤ 128 + n) := by omega
  have c3 : 128 ≤ 128 + n := by omega
  have c4 : 128 + n ≤ 143 := by omega
  rw [decodeValue.eq_def]
  simp [c1, c2, c3, c4]

theorem decodeValue_tinyList (d n : Nat) (rest : List Nat) (h : n ≤ 15) :
    decodeValue d ((144 + n) :: rest) =
      if d = 0 then .error (.malformed .tooDeep)
      else
        match decodeElems (d - 1) n rest with
        | .error e => .error e
        | .ok (vs, k) => .ok (.list vs, 1 + k) := by
  have c1 : ¬(144 + n ≤ 127) := by omega
  have c2 : ¬(240 ≤ 144 + n) := by omega
  have c3 : ¬(144 + n ≤ 143) := by omega
  have c4 : 144 ≤ 144 + n := by omega
  have c5 : 144 + n ≤ 159 := by omega
  rw [decodeValue.eq_def]
  simp [c1, c2, c3, c4, c5]

theorem decodeValue_tinyMap (d n : Nat) (rest : List Nat) (h : n ≤ 15) :
    decodeValue d ((160 + n) :: rest) =
      if d = 0 then .error (.malformed .tooDeep)
      else
        match decodePairs (d - 1) n rest with
        | .error e => .error e
        | .ok (ps, k) => .ok (.map ps, 1 + k) := by
  have c1 : ¬(160 + n ≤ 127) := by omega
  have c2 : ¬(240 ≤ 160 + n) := by omega
  have c3 : ¬(160 + n ≤ 143) := by omega
  have c4 : ¬(160 + n ≤ 159) := by omega
  have c5 : 160 ≤ 160 + n := by omega
  have c6 : 160 + n ≤ 175 := by omega
  rw [decodeValue.eq_def]
  simp [c1, c2, c3, c4, c5, c6]

theorem decodeValue_structHdr (d n : Nat) (rest : List Nat) (h : n ≤ 15) :
    decodeValue d ((176 + n) :: rest) =
      if rest.length = 0 then .error .needMoreInput
      else if d = 0 then .error (.malformed .tooDeep)
      else
        match decodeElems (d - 1) n rest.tail with
        | .error e => .error e
        | .ok (fs, k) => .ok (.struct (rest.headD 0) fs, 2 + k) := by
  have c1 : ¬(176 + n ≤ 127) := by omega
  have c2 : ¬(240 ≤ 176 + n) := by omega
  have c3 : ¬(176 + n ≤ 143) := by omega
  have c4 : ¬(176 + n ≤ 159) := by omega
  have c5 : ¬(176 + n ≤ 175) := by omega
  have c6 : 176 ≤ 176 + n := by omega
  have c7 : 176 + n ≤ 191 := by omega
  rw [decodeValue.eq_def]
  simp [c1, c2, c3, c4, c5, c6, c7]

theorem decodeValue_tinyBytes (d n : Nat) (rest : List Nat) (h : n ≤ 15) :
    decodeValue d ((224 + n) :: rest) =
      if n ≤ rest.length then .ok (.bytes (rest.take n), 1 + n)
      else .error .needMoreInput := by
  have c1 : ¬(224 + n ≤ 127) := by omega
  have c2 : ¬(240 ≤ 224 + n) := by omega
  have c3 : ¬(224 + n ≤ 143) := by omega
  have c4 : ¬(224 + n ≤ 159) := by omega
  have c5 : ¬(224 + n ≤ 175) := by omega
  have c6 : ¬(224 + n ≤ 191) := by omega
  have c7 : 224 ≤ 224 + n := by omega
  have c8 : 224 + n ≤ 239 := by omega
  rw [decodeValue.eq_def]
  simp [c1, c2, c3, c4, c5, c6, c7, c8]

theorem decodeValue_null (d : Nat) (rest : List Nat) :
    decodeValue d (192 :: rest) = .ok (.null, 1) := by
  rw [decodeValue.eq_def]
  simp

theorem decodeValue_float (d : Nat) (rest : List Nat) :
    decodeValue d (193 :: rest) =
      if 8 ≤ rest.length then .ok (.float (beJoin (rest.take 8)), 9)
      else .error .needMoreInput := by
  rw [decodeValue.eq_def]
  simp

theorem decodeValue_false (d : Nat) (rest : List Nat) :
    decodeValue d (194 :: rest) = .ok (.bool false, 1) := by
  rw [decodeValue.eq_def]
  simp

theorem decodeValue_true (d : Nat) (rest : List Nat) :
    decodeValue d (195 :: rest) = .ok (.bool true, 1) := by
  rw [decodeValue.eq_def]
  simp

theorem decodeValue_int8 (d : Nat) (rest : List Nat) :
    decodeValue d (200 :: rest) =
      if 1 ≤ rest.length then .ok (.int (toSigned 1 (beJoin (rest.take 1))), 2)
      else .error .needMoreInput := by
  rw [decodeValue.eq_def]
  simp

theorem decodeValue_int16 (d : Nat) (rest : List Nat) :
    decodeValue d (201 :: rest) =
      if 2 ≤ rest.length then .ok (.int (toSigned 2 (beJoin (rest.take 2))), 3)
      else .error .needMoreInput := by
  rw [decodeValue.eq_def]
  simp

theorem decodeValue_int32 (d : Nat) (rest : List Nat) :
    decodeValue d (202 :: rest) =
      if 4 ≤ rest.length then .ok (.int (toSigned 4 (beJoin (rest.take 4))), 5)
      else .error .needMoreInput := by
  rw [decodeValue.eq_def]
  simp

theorem decodeValue_int64 (d : Nat) (rest : List Nat) :
    decodeValue d (203 :: rest) =
      if 8 ≤ rest.length then .ok (.int (toSigned 8 (beJoin (rest.take 8))), 9)
      else .error .needMoreInput := by
  rw [decodeValue.eq_def]
  simp

theorem decodeValue_bytes8 (d : Nat) (rest : List Nat) :
    decodeValue d (204 :: rest) = readSized 1 rest .bytes := by
  rw [decodeValue.eq_def]
  simp

theorem decodeValue_bytes16 (d : Nat) (rest : List Nat) :
    decodeValue d (205 :: rest) = readSized 2 rest .bytes := by
  rw [decodeValue.eq_def]
  simp

theorem decodeValue_bytes32 (d : Nat) (rest : List Nat) :
    decodeValue d (206 :: rest) = readSized 4 rest .bytes := by
  rw [decodeValue.eq_def]
  simp

theorem decodeValue_str8 (d : Nat) (rest : List Nat) :
    decodeValue d (208 :: rest) = readSized 1 rest .string := by
  rw [decodeValue.eq_def]
  simp

theorem decodeValue_str16 (d : Nat) (rest : List Nat) :
    decodeValue d (209 :: rest) = readSized 2 rest .string := by
  rw [decodeValue.eq_def]
  simp

theorem decodeValue_str32 (d : Nat) (rest : List Nat) :
    decodeValue d (210 :: rest) = readSized 4 rest .string := by
  rw [decodeValue.eq_def]
  simp

theorem decodeValue_list8 (d : Nat) (rest : List Nat) :
    decodeValue d (212 :: rest) =
      if d = 0 then .error (.malformed .tooDeep)
      else if 1 ≤ rest.length then
        match decodeElems (d - 1) (beJoin (rest.take 1)) (rest.drop 1) with
        | .error e => .error e
        | .ok (vs, k) => .ok (.list vs, 2 + k)
      else .error .needMoreInput := by
  rw [decodeValue.eq_def]
  simp

theorem decodeValue_list16 (d : Nat) (rest : List Nat) :
    decodeValue d (213 :: rest) =
      if d = 0 then .error (.malformed .tooDeep)
      else if 2 ≤ rest.length then
        match decodeElems (d - 1) (beJoin (rest.take 2)) (rest.drop 2) with
        | .error e => .error e
        | .ok (vs, k) => .ok (.list vs, 3 + k)
      else .error .needMoreInput := by
  rw [decodeValue.eq_def]
  simp

theorem decodeValue_list32 (d : Nat) (rest : List Nat) :
    decodeValue d (214 :: rest) =
      if d = 0 then .error (.malformed .tooDeep)
      else if 4 ≤ rest.length then
        match decodeElems (d - 1) (beJoin (rest.take 4)) (rest.drop 4) with
        | .error e => .error e
        | .ok (vs, k) => .ok (.list vs, 5 + k)
      else .error .needMoreInput := by
  rw [decodeValue.eq_def]
  simp

theorem decodeValue_streamList (d : Nat) (rest : List Nat) :
    decodeValue d (215 :: rest) =
      if d = 0 then .error (.malformed .tooDeep)
      else
        match decodeStreamElems (d - 1) rest.length rest with
        | .error e => .error e
        | .ok (vs, k) => .ok (.list vs, 1 + k) := by
  rw [decodeValue.eq_def]
  simp

theorem decodeValue_map8 (d : Nat) (rest : List Nat) :
    decodeValue d (216 :: rest) =
      if d = 0 then .error (.malformed .tooDeep)
      else if 1 ≤ rest.length then
        match decodePairs (d - 1) (beJoin (rest.take 1)) (rest.drop 1) with
        | .error e => .error e
        | .ok (ps, k) => .ok (.map ps, 2 + k)
      else .error .needMoreInput := by
  rw [decodeValue.eq_def]
  simp

theorem decodeValue_map16 (d : Nat) (rest : List Nat) :
    decodeValue d (217 :: rest) =
      if d = 0 then .error (.malformed .tooDeep)
      else if 2 ≤ rest.length then
        match decodePairs (d - 1) (beJoin (rest.take 2)) (rest.drop 2) with
        | .error e => .error e
        | .ok (ps, k) => .ok (.map ps, 3 + k)
      else .error .needMoreInput := by
  rw [decodeValue.eq_def]
  simp

theorem decodeValue_map32 (d : Nat) (rest : List Nat) :
    decodeValue d (218 :: rest) =
      if d = 0 then .error (.malformed .tooDeep)
      else if 4 ≤ rest.length then
        match decodePairs (d - 1) (beJoin (rest.take 4)) (rest.drop 4) with
        | .error e => .error e
        | .ok (ps, k) => .ok (.map ps, 5 + k)
      else .error .needMoreInput := by
  rw [decodeValue.eq_def]
  simp

theorem decodeValue_streamMap (d : Nat) (rest : List Nat) :
    decodeValue d (219 :: rest) =
      if d = 0 then .error (.malformed .tooDeep)
      else
        match decodeStreamPairs (d - 1) rest.length rest with
        | .error e => .error e
        | .ok (ps, k) => .ok (.map ps, 1 + k) := by
  rw [decodeValue.eq_def]
  simp

theorem decodeValue_endMarker (d : Nat) (rest : List Nat) :
    decodeValue d (223 :: rest) = .error (.malformed .unexpectedEndMarker) := by
  rw [decodeValue.eq_def]
  simp

theorem decodeElems_zero (d : Nat) (input : List Nat) :
    decodeElems d 0 input = .ok ([], 0) := by
  rw [decodeElems.eq_def]
  simp

theorem decodeElems_succ (d n : Nat) (input : List Nat) :
    decodeElems d (n + 1) input =
      match decodeValue d input with
      | .error e => .error e
      | .ok (v, k) =>
        match decodeElems d n (input.drop k) with
        | .error e => .error e
        | .ok (vs, k2) => .ok (v :: vs, k + k2) := by
  rw [decodeElems.eq_def]
  simp

theorem decodePairs_zero (d : Nat) (input : List Nat) :
    decodePairs d 0 input = .ok ([], 0) := by
  rw [decodePairs.eq_def]
  simp

theorem decodePairs_succ (d n : Nat) (input : List Nat) :
    decodePairs d (n + 1) input =
      match decodeValue d input with
      | .error e => .error e
      | .ok (.string s, k1) =>
        match decodeValue d (input.drop k1) with
        | .error e => .error e
        | .ok (v, k2) =>
          match decodePairs d n (input.drop (k1 + k2)) with
          | .error e => .error e
          | .ok (ps, k3) => .ok ((s, v) :: ps, k1 + k2 + k3)
      | .ok (_, _) => .error (.malformed .invalidMapKey) := by
  rw [decodePairs.eq_def]
  simp

theorem decodeStreamElems_nil (d c : Nat) :
    decodeStreamElems d c [] = .error .needMoreInput := by
  rw [decodeStreamElems.eq_def]

theorem decodeStreamElems_end (d c b : Nat) (rest : List Nat) (h : b = 223) :
    decodeStreamElems d c (b :: rest) = .ok ([], 1) := by
  rw [decodeStreamElems.eq_def]
  simp [h]

theorem decodeStreamElems_cons (d c b : Nat) (rest : List Nat) (h : ¬(b = 223)) :
    decodeStreamElems d c (b :: rest) =
      if c = 0 then .error (.malformed .noProgress)
      else
        match decodeValue d (b :: rest) with
        | .error e => .error e
        | .ok (v, k) =>
          match decodeStreamElems d (c - 1) ((b :: rest).drop k) with
          | .error e => .error e
          | .ok (vs, k2) => .ok (v :: vs, k + k2) := by
  rw [decodeStreamElems.eq_def]
  simp [h]

theorem decodeStreamPairs_nil (d c : Nat) :
    decodeStreamPairs d c [] = .error .needMoreInput := by
  rw [decodeStreamPairs.eq_def]

theorem decodeStreamPairs_end (d c b : Nat) (rest : List Nat) (h : b = 223) :
    decodeStreamPairs d c (b :: rest) = .ok ([], 1) := by
  rw [decodeStreamPairs.eq_def]
  simp [h]

theorem decodeStreamPairs_cons (d c b : Nat) (rest : List Nat) (h : ¬(b = 223)) :
    decodeStreamPairs d c (b :: rest) =
      if c = 0 then .error (.malformed .noProgress)
      else
        match decodeValue d (b :: rest) with
        | .error e => .error e
        | .ok (.string s, k1) =>
          match decodeValue d ((b :: rest).drop k1) with
          | .error e => .error e
          | .ok (v, k2) =>
            match decodeStreamPairs d (c - 1) ((b :: rest).drop (k1 + k2)) with
            | .error e => .error e
            | .ok (ps, k3) => .ok ((s, v) :: ps, k1 + k2 + k3)
        | .ok (_, _) => .error (.malformed .invalidMapKey) := by
  rw [decodeStreamPairs.eq_def]
  simp [h]

theorem decodeValue_encodeInt (d : Nat) (i : Int) (tail : List Nat)
    (h1 : -9223372036854775808 ≤ i) (h2 : i ≤ 9223372036854775807) :
    decodeValue d (encodeInt i ++ tail) = .ok (.int i, (encodeInt i).length) := by
  unfold encodeInt
  split_ifs with ht h8 h16 h32
  · rcases le_or_lt 0 i with hpos | hneg
    · have hm : toUnsigned 1 i ≤ 127 := by rw [toUnsigned_1_eq]; omega
      have hv : ((toUnsigned 1 i : Nat) : Int) = i := by rw [toUnsigned_1_eq]; omega
      simp only [List.cons_append, List.nil_append,
        decodeValue_tinyPos d _ tail hm, hv, List.length_cons, List.length_nil]
    · have hm1 : 240 ≤ toUnsigned 1 i := by rw [toUnsigned_1_eq]; omega
      have hm2 : toUnsigned 1 i ≤ 255 := by rw [toUnsigned_1_eq]; omega
      have hv : ((toUnsigned 1 i : Nat) : Int) - 256 = i := by rw [toUnsigned_1_eq]; omega
      simp only [List.cons_append, List.nil_append,
        decodeValue_tinyNeg d _ tail hm1 hm2, hv, List.length_cons, List.length_nil]
  · have hlen : 1 ≤ (beBytes 1 (toUnsigned 1 i) ++ tail).length := by
      simp [beBytes_length]
    rw [List.cons_append, decodeValue_int8, if_pos hlen,
      List.take_left' (beBytes_length 1 _), beJoin_beBytes_of_lt _ _ (toUnsigned_1_lt i),
      toSigned_toUnsigned_1 i (by omega) (by omega)]
    simp [beBytes_length]
  · have hlen : 2 ≤ (beBytes 2 (toUnsigned 2 i) ++ tail).length := by
      simp [beBytes_length]
    rw [List.cons_append, decodeValue_int16, if_pos hlen,
      List.take_left' (beBytes_length 2 _), beJoin_beBytes_of_lt _ _ (toUnsigned_2_lt i),
      toSigned_toUnsigned_2 i (by omega) (by omega)]
    simp [beBytes_length]
  · have hlen : 4 ≤ (beBytes 4 (toUnsigned 4 i) ++ tail).length := by
      simp [beBytes_length]
    rw [List.cons_append, decodeValue_int32, if_pos hlen,
      List.take_left' (beBytes_length 4 _), beJoin_beBytes_of_lt _ _ (toUnsigned_4_lt i),
      toSigned_toUnsigned_4 i (by omega) (by omega)]
    simp [beBytes_length]
  · have hlen : 8 ≤ (beBytes 8 (toUnsigned 8 i) ++ tail).length := by
      simp [beBytes_length]
    rw [List.cons_append, decodeValue_int64, if_pos hlen,
      List.take_left' (beBytes_length 8 _), beJoin_beBytes_of_lt _ _ (toUnsigned_8_lt i),
      toSigned_toUnsigned_8 i (by omega) (by omega)]
    simp [beBytes_length]

theorem decodeValue_encodeStringBytes (d : Nat) (s bs tail : List Nat)
    (h : encodeStringBytes s = .ok bs) :
    decodeValue d (bs ++ tail) = .ok (.string s, bs.length) := by
  unfold encodeStringBytes lenHeader at h
  split_ifs at h with h15 h255 h65535 hmax
  · simp only [Except.ok.injEq] at h
    subst h
    simp only [List.nil_append, List.cons_append, List.append_assoc]
    rw [decodeValue_tinyStr d s.length (s ++ tail) h15,
      if_pos (by simp : s.length ≤ (s ++ tail).length), List.take_left]
    simp
    omega
  · simp only [Except.ok.injEq] at h
    subst h
    simp only [List.nil_append, List.cons_append, List.append_assoc]
    rw [decodeValue_str8,
      readSized_prefix 1 s.length s tail .string (by norm_num; omega) rfl]
    simp [beBytes_length]
    omega
  · simp only [Except.ok.injEq] at h
    subst h
    simp only [List.nil_append, List.cons_append, List.append_assoc]
    rw [decodeValue_str16,
      readSized_prefix 2 s.length s tail .string (by norm_num; omega) rfl]
    simp [beBytes_length]
    omega
  · simp only [Except.ok.injEq] at h
    subst h
    simp only [List.nil_append, List.cons_append, List.append_assoc]
    rw [decodeValue_str32,
      readSized_prefix 4 s.length s tail .string
        (by unfold maxLen at hmax; norm_num; omega) rfl]
    simp [beBytes_length]
    omega

theorem decodeValue_encodeBytes (d : Nat) (s bs tail : List Nat)
    (h : (match lenHeader 0xE0 0xCC 0xCD 0xCE s.length with
          | .error e => .error e
          | .ok hdr => .ok (hdr ++ s) : Except EncodeError (List Nat)) = .ok bs) :
    decodeValue d (bs ++ tail) = .ok (.bytes s, bs.length) := by
  unfold lenHeader at h
  split_ifs at h with h15 h255 h65535 hmax
  · simp only [Except.ok.injEq] at h
    subst h
    simp only [List.nil_append, List.cons_append, List.append_assoc]
    rw [decodeValue_tinyBytes d s.length (s ++ tail) h15,
      if_pos (by simp : s.length ≤ (s ++ tail).length), List.take_left]
    simp
    omega
  · simp only [Except.ok.injEq] at h
    subst h
    simp only [List.nil_append, List.cons_append, List.append_assoc]
    rw [decodeValue_bytes8,
      readSized_prefix 1 s.length s tail .bytes (by norm_num; omega) rfl]
    simp [beBytes_length]
    omega
  · simp only [Except.ok.injEq] at h
    subst h
    simp only [List.nil_append, List.cons_append, List.append_assoc]
    rw [decodeValue_bytes16,
      readSized_prefix 2 s.length s tail .bytes (by norm_num; omega) rfl]
    simp [beBytes_length]
    omega
  · simp only [Except.ok.injEq] at h
    subst h
    simp only [List.nil_append, List.cons_append, List.append_assoc]
    rw [decodeValue_bytes32,
      readSized_prefix 4 s.length s tail .bytes
        (by unfold maxLen at hmax; norm_num; omega) rfl]
    simp [beBytes_length]
    omega

theorem decodeValue_encodeFloat (d : Nat) (bits : Nat) (tail : List Nat)
    (h : bits ≤ 18446744073709551615) :
    decodeValue d ((193 :: beBytes 8 bits) ++ tail) = .ok (.float bits, 9) := by
  have hlen : 8 ≤ (beBytes 8 bits ++ tail).length := by simp [beBytes_length]
  rw [List.cons_append, decodeValue_float, if_pos hlen,
    List.take_left' (beBytes_length 8 _), beJoin_beBytes_of_lt 8 bits (by norm_num; omega)]

theorem rtElems_of_value (d : Nat)
    (hv : ∀ v bs tail, typeOk v = true → depthOf v ≤ d → encodeValue v = .ok bs →
      decodeValue d (bs ++ tail) = .ok (v, bs.length)) :
    ∀ vs bs tail, typeOkList vs = true → depthList vs ≤ d → encodeList vs = .ok bs →
      decodeElems d vs.length (bs ++ tail) = .ok (vs, bs.length) := by
  intro vs
  induction vs with
  | nil =>
    intro bs tail _ _ he
    rw [encodeList.eq_def] at he
    simp only [Except.ok.injEq] at he
    subst he
    simp [decodeElems_zero]
  | cons v vs ih =>
    intro bs tail htl hdl he
    rw [encodeList.eq_def] at he
    simp only [] at he
    cases hv1 : encodeValue v with
    | error e => rw [hv1] at he; simp at he
    | ok b =>
      rw [hv1] at he
      cases hv2 : encodeList vs with
      | error e => rw [hv2] at he; simp at he
      | ok bs2 =>
        rw [hv2] at he
        simp only [Except.ok.injEq] at he
        subst he
        rw [typeOkList.eq_def] at htl
        simp only [Bool.and_eq_true] at htl
        rw [depthList.eq_def] at hdl
        simp only [max_le_iff] at hdl
        simp only [List.length_cons, List.append_assoc, decodeElems_succ,
          hv v b (bs2 ++ tail) htl.1 hdl.1 hv1, List.drop_left,
          ih bs2 tail htl.2 hdl.2 hv2, List.length_append]

theorem rtPairs_of_value (d : Nat)
    (hv : ∀ v bs tail, typeOk v = true → depthOf v ≤ d → encodeValue v = .ok bs →
      decodeValue d (bs ++ tail) = .ok (v, bs.length)) :
    ∀ kvs bs tail, typeOkPairs kvs = true → depthPairs kvs ≤ d → encodePairs kvs = .ok bs →
      decodePairs d kvs.length (bs ++ tail) = .ok (kvs, bs.length) := by
  intro kvs
  induction kvs with
  | nil =>
    intro bs tail _ _ he
    rw [encodePairs.eq_def] at he
    simp only [Except.ok.injEq] at he
    subst he
    simp [decodePairs_zero]
  | cons kv kvs ih =>
    obtain ⟨key, v⟩ := kv
    intro bs tail htl hdl he
    rw [encodePairs.eq_def] at he
    simp only [] at he
    cases hk : encodeStringBytes key with
    | error e => rw [hk] at he; simp at he
    | ok kb =>
      rw [hk] at he
      cases hv1 : encodeValue v with
      | error e => rw [hv1] at he; simp at he
      | ok vb =>
        rw [hv1] at he
        cases hv2 : encodePairs kvs with
        | error e => rw [hv2] at he; simp at he
        | ok bs2 =>
          rw [hv2] at he
          simp only [Except.ok.injEq] at he
          subst he
          rw [typeOkPairs.eq_def] at htl
          simp only [Bool.and_eq_true] at htl
          rw [depthPairs.eq_def] at hdl
          simp only [max_le_iff] at hdl
          have hkey := decodeValue_encodeStringBytes d key kb (vb ++ (bs2 ++ tail)) hk
          have hval := hv v vb (bs2 ++ tail) htl.1 hdl.1 hv1
          have hrest := ih bs2 tail htl.2 hdl.2 hv2
          have hdrop1 : (kb ++ (vb ++ (bs2 ++ tail))).drop kb.length = vb ++ (bs2 ++ tail) :=
            List.drop_left kb _
          have hdrop2 : (kb ++ (vb ++ (bs2 ++ tail))).drop (kb.length + vb.length) =
              bs2 ++ tail := by
            rw [← List.append_assoc, List.drop_left' (by simp)]
          simp only [List.length_cons, List.append_assoc, decodePairs_succ,
            hkey, hdrop1, hval, hdrop2, hrest, List.length_append]
          rw [Nat.add_assoc]

theorem rtValue_gen (d : Nat)
    (ihE : d ≠ 0 → ∀ vs bs tail, typeOkList vs = true → depthList vs ≤ d - 1 →
      encodeList vs = .ok bs → decodeElems (d - 1) vs.length (bs ++ tail) = .ok (vs, bs.length))
    (ihP : d ≠ 0 → ∀ kvs bs tail, typeOkPairs kvs = true → depthPairs kvs ≤ d - 1 →
      encodePairs kvs = .ok bs →
      decodePairs (d - 1) kvs.length (bs ++ tail) = .ok (kvs, bs.length)) :
    ∀ v bs tail, typeOk v = true → depthOf v ≤ d → encodeValue v = .ok bs →
      decodeValue d (bs ++ tail) = .ok (v, bs.length) := by
  intro v bs tail ht hd he
  cases v with
  | null =>
    rw [encodeValue.eq_def] at he
    simp only [Except.ok.injEq] at he
    subst he
    simp [decodeValue_null]
  | bool b =>
    cases b with
    | false =>
      rw [encodeValue.eq_def] at he
      simp only [Except.ok.injEq] at he
      subst he
      simp [decodeValue_false]
    | true =>
      rw [encodeValue.eq_def] at he
      simp only [Except.ok.injEq] at he
      subst he
      simp [decodeValue_true]
  | int i =>
    rw [encodeValue.eq_def] at he
    simp only [Except.ok.injEq] at he
    subst he
    rw [typeOk.eq_def] at ht
    simp only [decide_eq_true_eq] at ht
    exact decodeValue_encodeInt d i tail ht.1 ht.2
  | float bits =>
    rw [encodeValue.eq_def] at he
    simp only [Except.ok.injEq] at he
    subst he
    rw [typeOk.eq_def] at ht
    simp only [decide_eq_true_eq] at ht
    rw [decodeValue_encodeFloat d bits tail ht]
    simp [beBytes_length]
  | bytes s =>
    rw [encodeValue.eq_def] at he
    exact decodeValue_encodeBytes d s bs tail he
  | string s =>
    rw [encodeValue.eq_def] at he
    exact decodeValue_encodeStringBytes d s bs tail he
  | list vs =>
    rw [encodeValue.eq_def] at he
    simp only [] at he
    rw [typeOk.eq_def] at ht
    simp only [] at ht
    rw [depthOf.eq_def] at hd
    simp only [] at hd
    have hne : d ≠ 0 := by omega
    have hdl : depthList vs ≤ d - 1 := by omega
    unfold lenHeader at he
    split_ifs at he with h15 h255 h65535 hmax
    · cases hb : encodeList vs with
      | error e => rw [hb] at he; simp at he
      | ok body =>
        rw [hb] at he
        simp only [Except.ok.injEq] at he
        subst he
        simp only [List.nil_append, List.cons_append, List.append_assoc]
        rw [decodeValue_tinyList d vs.length (body ++ tail) h15, if_neg hne,
          ihE hne vs body tail ht hdl hb]
        simp
        omega
    · cases hb : encodeList vs with
      | error e => rw [hb] at he; simp at he
      | ok body =>
        rw [hb] at he
        simp only [Except.ok.injEq] at he
        subst he
        simp only [List.nil_append, List.cons_append, List.append_assoc]
        rw [decodeValue_list8, if_neg hne,
          if_pos (by simp [beBytes_length] : 1 ≤ (beBytes 1 vs.length ++ (body ++ tail)).length),
          List.take_left' (beBytes_length 1 _), List.drop_left' (beBytes_length 1 _),
          beJoin_beBytes_of_lt 1 vs.length (by norm_num; omega),
          ihE hne vs body tail ht hdl hb]
        simp [beBytes_length]
        omega
    · cases hb : encodeList vs with
      | error e => rw [hb] at he; simp at he
      | ok body =>
        rw [hb] at he
        simp only [Except.ok.injEq] at he
        subst he
        simp only [List.nil_append, List.cons_append, List.append_assoc]
        rw [decodeValue_list16, if_neg hne,
          if_pos (by simp [beBytes_length] : 2 ≤ (beBytes 2 vs.length ++ (body ++ tail)).length),
          List.take_left' (beBytes_length 2 _), List.drop_left' (beBytes_length 2 _),
          beJoin_beBytes_of_lt 2 vs.length (by norm_num; omega),
          ihE hne vs body tail ht hdl hb]
        simp [beBytes_length]
        omega
    · cases hb : encodeList vs with
      | error e => rw [hb] at he; simp at he
      | ok body =>
        rw [hb] at he
        simp only [Except.ok.injEq] at he
        subst he
        simp only [List.nil_append, List.cons_append, List.append_assoc]
        rw [decodeValue_list32, if_neg hne,
          if_pos (by simp [beBytes_length] : 4 ≤ (beBytes 4 vs.length ++ (body ++ tail)).length),
          List.take_left' (beBytes_length 4 _), List.drop_left' (beBytes_length 4 _),
          beJoin_beBytes_of_lt 4 vs.length (by unfold maxLen at hmax; norm_num; omega),
          ihE hne vs body tail ht hdl hb]
        simp [beBytes_length]
        omega
  | map kvs =>
    rw [encodeValue.eq_def] at he
    simp only [] at he
    rw [typeOk.eq_def] at ht
    simp only [] at ht
    rw [depthOf.eq_def] at hd
    simp only [] at hd
    have hne : d ≠ 0 := by omega
    have hdl : depthPairs kvs ≤ d - 1 := by omega
    unfold lenHeader at he
    split_ifs at he with h15 h255 h65535 hmax
    · cases hb : encodePairs kvs with
      | error e => rw [hb] at he; simp at he
      | ok body =>
        rw [hb] at he
        simp only [Except.ok.injEq] at he
        subst he
        simp only [List.nil_append, List.cons_append, List.append_assoc]
        rw [decodeValue_tinyMap d kvs.length (body ++ tail) h15, if_neg hne,
          ihP hne kvs body tail ht hdl hb]
        simp
        omega
    · cases hb : encodePairs kvs with
      | error e => rw [hb] at he; simp at he
      | ok body =>
        rw [hb] at he
        simp only [Except.ok.injEq] at he
        subst he
        simp only [List.nil_append, List.cons_append, List.append_assoc]
        rw [decodeValue_map8, if_neg hne,
          if_pos (by simp [beBytes_length] : 1 ≤ (beBytes 1 kvs.length ++ (body ++ tail)).length),
          List.take_left' (beBytes_length 1 _), List.drop_left' (beBytes_length 1 _),
          beJoin_beBytes_of_lt 1 kvs.length (by norm_num; omega),
          ihP hne kvs body tail ht hdl hb]
        simp [beBytes_length]
        omega
    · cases hb : encodePairs kvs with
      | error e => rw [hb] at he; simp at he
      | ok body =>
        rw [hb] at he
        simp only [Except.ok.injEq] at he
        subst he
        simp only [List.nil_append, List.cons_append, List.append_assoc]
        rw [decodeValue_map16, if_neg hne,
          if_pos (by simp [beBytes_length] : 2 ≤ (beBytes 2 kvs.length ++ (body ++ tail)).length),
          List.take_left' (beBytes_length 2 _), List.drop_left' (beBytes_length 2 _),
          beJoin_beBytes_of_lt 2 kvs.length (by norm_num; omega),
          ihP hne kvs body tail ht hdl hb]
        simp [beBytes_length]
        omega
    · cases hb : encodePairs kvs with
      | error e => rw [hb] at he; simp at he
      | ok body =>
        rw [hb] at he
        simp only [Except.ok.injEq] at he
        subst he
        simp only [List.nil_append, List.cons_append, List.append_assoc]
        rw [decodeValue_map32, if_neg hne,
          if_pos (by simp [beBytes_length] : 4 ≤ (beBytes 4 kvs.length ++ (body ++ tail)).length),
          List.take_left' (beBytes_length 4 _), List.drop_left' (beBytes_length 4 _),
          beJoin_beBytes_of_lt 4 kvs.length (by unfold maxLen at hmax; norm_num; omega),
          ihP hne kvs body tail ht hdl hb]
        simp [beBytes_length]
        omega
  | struct tag fs =>
    rw [encodeValue.eq_def] at he
    simp only [] at he
    rw [typeOk.eq_def] at ht
    simp only [Bool.and_eq_true] at ht
    rw [depthOf.eq_def] at hd
    simp only [] at hd
    have hne : d ≠ 0 := by omega
    have hdl : depthList fs ≤ d - 1 := by omega
    split_ifs at he with h15
    cases hb : encodeList fs with
    | error e => rw [hb] at he; simp at he
    | ok body =>
      rw [hb] at he
      simp only [Except.ok.injEq] at he
      subst he
      simp only [List.nil_append, List.cons_append, List.append_assoc]
      rw [decodeValue_structHdr d fs.length (tag :: (body ++ tail)) h15]
      simp only [List.length_cons, List.tail_cons, List.headD_cons]
      rw [if_neg (by omega), if_neg hne, ihE hne fs body tail ht.2 hdl hb]
      simp
      omega

theorem rtAll (d : Nat) :
    (∀ v bs tail, typeOk v = true → depthOf v ≤ d → encodeValue v = .ok bs →
      decodeValue d (bs ++ tail) = .ok (v, bs.length))
    ∧ (∀ vs bs tail, typeOkList vs = true → depthList vs ≤ d → encodeList vs = .ok bs →
      decodeElems d vs.length (bs ++ tail) = .ok (vs, bs.length))
    ∧ (∀ kvs bs tail, typeOkPairs kvs = true → depthPairs kvs ≤ d →
      encodePairs kvs = .ok bs →
      decodePairs d kvs.length (bs ++ tail) = .ok (kvs, bs.length)) := by
  induction d with
  | zero =>
    have hv := rtValue_gen 0 (fun h => absurd rfl h) (fun h => absurd rfl h)
    exact ⟨hv, rtElems_of_value 0 hv, rtPairs_of_value 0 hv⟩
  | succ d ih =>
    have hv := rtValue_gen (d + 1) (fun _ => by simpa using ih.2.1)
      (fun _ => by simpa using ih.2.2)
    exact ⟨hv, rtElems_of_value _ hv, rtPairs_of_value _ hv⟩

theorem roundtrip_value (v : Value) (bs : List Nat) (ht : typeOk v = true)
    (hd : depthOf v ≤ depthLimit) (he : encodeValue v = .ok bs) :
    decode bs = .ok (v, bs.length) := by
  have h := (rtAll depthLimit).1 v bs [] ht hd he
  rw [List.append_nil] at h
  exact h

theorem lenHeader_error (t a b c n : Nat) (e : EncodeError)
    (h : lenHeader t a b c n = .error e) : maxLen < n ∧ e = .valueTooLarge := by
  unfold lenHeader at h
  unfold maxLen at h ⊢
  split_ifs at h with h1 h2 h3 h4 <;> simp_all <;> omega

theorem lenHeader_okLe (t a b c n : Nat) (hdr : List Nat)
    (h : lenHeader t a b c n = .ok hdr) : n ≤ maxLen := by
  unfold lenHeader at h
  unfold maxLen at h ⊢
  split_ifs at h with h1 h2 h3 h4 <;> simp_all <;> omega

theorem lenHeader_of_le (t a b c n : Nat) (h : n ≤ maxLen) :
    ∃ hdr, lenHeader t a b c n = .ok hdr := by
  unfold lenHeader
  split_ifs with h1 h2 h3
  all_goals exact ⟨_, rfl⟩

theorem encodeStringBytes_ok_iff (s : List Nat) :
    (∃ bs, encodeStringBytes s = .ok bs) ↔ s.length ≤ maxLen := by
  unfold encodeStringBytes
  constructor
  · rintro ⟨bs, hb⟩
    cases hh : lenHeader 128 208 209 210 s.length with
    | error e => rw [hh] at hb; simp at hb
    | ok hdr => exact lenHeader_okLe _ _ _ _ _ _ hh
  · intro h
    obtain ⟨hdr, hh⟩ := lenHeader_of_le 128 208 209 210 s.length h
    exact ⟨hdr ++ s, by rw [hh]⟩

theorem encOk (bound : Nat) :
    (∀ v : Value, sizeOf v < bound → ((∃ bs, encodeValue v = .ok bs) ↔ sizeOkV v = true))
    ∧ (∀ vs : List Value, sizeOf vs < bound →
      ((∃ bs, encodeList vs = .ok bs) ↔ sizeOkList vs = true))
    ∧ (∀ ps : List (List Nat × Value), sizeOf ps < bound →
      ((∃ bs, encodePairs ps = .ok bs) ↔ sizeOkPairs ps = true)) := by
  induction bound using Nat.strong_induction_on with
  | _ bound ih =>
  refine ⟨?_, ?_, ?_⟩
  · intro v hv
    cases v with
    | null =>
      rw [encodeValue.eq_def, sizeOkV.eq_def]
      simp
    | bool b =>
      cases b <;> (rw [encodeValue.eq_def, sizeOkV.eq_def]; simp)
    | int i =>
      rw [encodeValue.eq_def, sizeOkV.eq_def]
      simp
    | float bits =>
      rw [encodeValue.eq_def, sizeOkV.eq_def]
      simp
    | bytes s =>
      rw [encodeValue.eq_def, sizeOkV.eq_def]
      simp only [decide_eq_true_eq]
      cases hh : lenHeader 224 204 205 206 s.length with
      | error e =>
        have := (lenHeader_error _ _ _ _ _ _ hh).1
        simp
        omega
      | ok hdr =>
        have := lenHeader_okLe _ _ _ _ _ _ hh
        simp
        omega
    | string s =>
      rw [encodeValue.eq_def, sizeOkV.eq_def]
      simp only [decide_eq_true_eq]
      exact encodeStringBytes_ok_iff s
    | list vs =>
      rw [encodeValue.eq_def, sizeOkV.eq_def]
      simp only [Value.list.sizeOf_spec] at hv
      have hvs := (ih (sizeOf vs + 1) (by omega)).2.1 vs (by omega)
      simp only [Bool.and_eq_true, decide_eq_true_eq]
      cases hh : lenHeader 144 212 213 214 vs.length with
      | error e =>
        have := (lenHeader_error _ _ _ _ _ _ hh).1
        simp
        omega
      | ok hdr =>
        have hle := lenHeader_okLe _ _ _ _ _ _ hh
        cases hb : encodeList vs with
        | error e =>
          rw [hb] at hvs
          simp at hvs
          simp [← hvs]
        | ok body =>
          rw [hb] at hvs
          simp at hvs
          simp [hle, hvs]
    | map kvs =>
      rw [encodeValue.eq_def, sizeOkV.eq_def]
      simp only [Value.map.sizeOf_spec] at hv
      have hps := (ih (sizeOf kvs + 1) (by omega)).2.2 kvs (by omega)
      simp only [Bool.and_eq_true, decide_eq_true_eq]
      cases hh : lenHeader 160 216 217 218 kvs.length with
      | error e =>
        have := (lenHeader_error _ _ _ _ _ _ hh).1
        simp
        omega
      | ok hdr =>
        have hle := lenHeader_okLe _ _ _ _ _ _ hh
        cases hb : encodePairs kvs with
        | error e =>
          rw [hb] at hps
          simp at hps
          simp [← hps]
        | ok body =>
          rw [hb] at hps
          simp at hps
          simp [hle, hps]
    | struct tag fs =>
      rw [encodeValue.eq_def, sizeOkV.eq_def]
      simp only [Value.struct.sizeOf_spec] at hv
      have hfs := (ih (sizeOf fs + 1) (by omega)).2.1 fs (by omega)
      simp only [Bool.and_eq_true, decide_eq_true_eq]
      by_cases h15 : fs.length ≤ 15
      · rw [if_pos h15]
        cases hb : encodeList fs with
        | error e =>
          rw [hb] at hfs
          simp at hfs
          simp [← hfs]
        | ok body =>
          rw [hb] at hfs
          simp at hfs
          simp [h15, hfs]
      · rw [if_neg h15]
        simp [h15]
  · intro vs hv
    cases vs with
    | nil =>
      rw [encodeList.eq_def, sizeOkList.eq_def]
      simp
    | cons v vs =>
      rw [encodeList.eq_def, sizeOkList.eq_def]
      simp only [List.cons.sizeOf_spec] at hv
      have hv1 := (ih (sizeOf v + 1) (by omega)).1 v (by omega)
      have hv2 := (ih (sizeOf vs + 1) (by omega)).2.1 vs (by omega)
      simp only [Bool.and_eq_true]
      cases hb1 : encodeValue v with
      | error e =>
        rw [hb1] at hv1
        simp at hv1
        simp [← hv1]
      | ok b =>
        rw [hb1] at hv1
        simp at hv1
        cases hb2 : encodeList vs with
        | error e =>
          rw [hb2] at hv2
          simp at hv2
          simp [← hv2]
        | ok bs2 =>
          rw [hb2] at hv2
          simp at hv2
          simp [hv1, hv2]
  · intro ps hv
    cases ps with
    | nil =>
      rw [encodePairs.eq_def, sizeOkPairs.eq_def]
      simp
    | cons kv ps =>
      obtain ⟨key, v⟩ := kv
      rw [encodePairs.eq_def, sizeOkPairs.eq_def]
      simp only [List.cons.sizeOf_spec, Prod.mk.sizeOf_spec] at hv
      have hv1 := (ih (sizeOf v + 1) (by omega)).1 v (by omega)
      have hv2 := (ih (sizeOf ps + 1) (by omega)).2.2 ps (by omega)
      have hkiff := encodeStringBytes_ok_iff key
      simp only [Bool.and_eq_true, decide_eq_true_eq]
      cases hbk : encodeStringBytes key with
      | error e =>
        rw [hbk] at hkiff
        simp at hkiff
        simp
        omega
      | ok kb =>
        rw [hbk] at hkiff
        simp at hkiff
        cases hb1 : encodeValue v with
        | error e =>
          rw [hb1] at hv1
          simp at hv1
          simp [← hv1, hkiff]
        | ok vb =>
          rw [hb1] at hv1
          simp at hv1
          cases hb2 : encodePairs ps with
          | error e =>
            rw [hb2] at hv2
            simp at hv2
            simp [← hv2, hkiff]
          | ok bs2 =>
            rw [hb2] at hv2
            simp at hv2
            simp [hkiff, hv1, hv2]

theorem encodeValue_ok_iff (v : Value) :
    (∃ bs, encodeValue v = .ok bs) ↔ sizeOkV v = true :=
  (encOk (sizeOf v + 1)).1 v (by omega)

/-- A list nested `n` levels deep with a null at the bottom. -/
def deepNest : Nat → Value
  | 0 => .null
  | n + 1 => .list [deepNest n]

theorem typeOk_deepNest (n : Nat) : typeOk (deepNest n) = true := by
  induction n with
  | zero =>
    rw [deepNest, typeOk.eq_def]
  | succ n ih =>
    rw [deepNest, typeOk.eq_def]
    simp only []
    rw [typeOkList.eq_def]
    simp only []
    rw [typeOkList.eq_def]
    simp [ih]

theorem sizeOk_deepNest (n : Nat) : sizeOkV (deepNest n) = true := by
  induction n with
  | zero =>
    rw [deepNest, sizeOkV.eq_def]
  | succ n ih =>
    rw [deepNest, sizeOkV.eq_def]
    simp only []
    rw [sizeOkList.eq_def]
    simp only []
    rw [sizeOkList.eq_def]
    simp [ih, maxLen]

theorem encode_deepNest (n : Nat) :
    encodeValue (deepNest n) = .ok (List.replicate n 145 ++ [192]) := by
  induction n with
  | zero =>
    rw [deepNest, encodeValue.eq_def]
    simp
  | succ n ih =>
    rw [deepNest, encodeValue.eq_def]
    simp only []
    rw [encodeList.eq_def]
    simp only [ih]
    rw [encodeList.eq_def]
    simp only []
    unfold lenHeader
    norm_num
    rw [List.replicate_succ]
    simp

theorem decode_deep_tooDeep (d : Nat) (input : List Nat) :
    decodeValue d (List.replicate (d + 1) 145 ++ input) =
      .error (.malformed .tooDeep) := by
  induction d generalizing input with
  | zero =>
    have h := decodeValue_tinyList 0 1 input (by omega)
    norm_num at h
    simpa using h
  | succ d ih =>
    have h := decodeValue_tinyList (d + 1) 1 (List.replicate (d + 1) 145 ++ input)
      (by omega)
    norm_num at h
    rw [List.replicate_succ, List.cons_append, h, decodeElems_succ, ih input]

/-- Claim C8: decoding is total — for every input it returns a result (never
exhausting a call stack, the decoder threading an explicit depth budget) — and
once container nesting exceeds the depth bound the decoder returns the
`tooDeep` MalformedInput error, as witnessed on arbitrarily extended inputs
whose first `depthLimit + 1` bytes are nested list markers. -/
theorem c8_bounded_depth :
    (∀ input : List Nat,
      (∃ v k, decode input = .ok (v, k)) ∨ (∃ e, decode input = .error e))
    ∧ (∀ input : List Nat,
      decode (List.replicate (depthLimit + 1) 145 ++ input) =
        .error (.malformed .tooDeep)) := by
  constructor
  · intro input
    cases h : decode input with
    | error e => exact Or.inr ⟨e, rfl⟩
    | ok p =>
      obtain ⟨v, k⟩ := p
      exact Or.inl ⟨v, k, rfl⟩
  · intro input
    exact decode_deep_tooDeep depthLimit input

/-- Claim C1 counterexample: the 1025-deep nested list satisfies every size
invariant (and is machine-representable), encodes successfully, yet decoding
its encoding yields the `tooDeep` error rather than the value itself, because
the decoder's nesting bound is 1024. -/
theorem c1_roundtrip_counterexample :
    typeOk (deepNest 1025) = true
    ∧ sizeOkV (deepNest 1025) = true
    ∧ encodeValue (deepNest 1025) = .ok (List.replicate 1025 145 ++ [192])
    ∧ decode (List.replicate 1025 145 ++ [192]) = .error (.malformed .tooDeep) := by
  refine ⟨typeOk_deepNest 1025, sizeOk_deepNest 1025, encode_deepNest 1025, ?_⟩
  have h := decode_deep_tooDeep depthLimit [192]
  unfold depthLimit at h
  norm_num at h
  exact h

/-- Claim C1 (amended): round-trip fidelity holds for every machine-representable
Value that satisfies the size invariants and whose container nesting depth stays
within the decoder's depth bound: encoding succeeds and decoding the encoding
returns exactly the value (consuming all its bytes). -/
theorem c1_roundtrip (v : Value) (ht : typeOk v = true) (hs : sizeOkV v = true)
    (hd : depthOf v ≤ depthLimit) :
    ∃ bs, encodeValue v = .ok bs ∧ decode bs = .ok (v, bs.length) := by
  obtain ⟨bs, hb⟩ := (encodeValue_ok_iff v).mpr hs
  exact ⟨bs, hb, roundtrip_value v bs ht hd hb⟩

theorem c1_roundtrip_witness :
    typeOk (.list [.int 1, .string [104, 105]]) = true
    ∧ sizeOkV (.list [.int 1, .string [104, 105]]) = true
    ∧ depthOf (.list [.int 1, .string [104, 105]]) ≤ depthLimit
    ∧ ∃ bs, encodeValue (.list [.int 1, .string [104, 105]]) = .ok bs
        ∧ decode bs = .ok (.list [.int 1, .string [104, 105]], bs.length) := by
  have h1 : typeOk (.list [.int 1, .string [104, 105]]) = true := by
    simp [typeOk, typeOkList]
  have h2 : sizeOkV (.list [.int 1, .string [104, 105]]) = true := by
    simp [sizeOkV, sizeOkList, maxLen]
  have h3 : depthOf (.list [.int 1, .string [104, 105]]) ≤ depthLimit := by
    simp [depthOf, depthList, depthLimit]
  exact ⟨h1, h2, h3, c1_roundtrip _ h1 h2 h3⟩

/-- The five integer encoding forms, narrowest first. -/
inductive IntForm where
  | tiny
  | i8
  | i16
  | i32
  | i64
deriving DecidableEq

/-- Modelled from the spec's words: the value range covered by each integer
form (tiny covers the marker-packed `-16..127`; the others the two's-complement
ranges of their widths). -/
def formContains : IntForm → Int → Bool
  | .tiny, i => decide (-16 ≤ i ∧ i ≤ 127)
  | .i8, i => decide (-128 ≤ i ∧ i ≤ 127)
  | .i16, i => decide (-32768 ≤ i ∧ i ≤ 32767)
  | .i32, i => decide (-2147483648 ≤ i ∧ i ≤ 2147483647)
  | .i64, i => decide (-9223372036854775808 ≤ i ∧ i ≤ 9223372036854775807)

/-- Modelled from the spec's words: the narrowest integer form whose range
contains `i` — the first containing form in narrowest-to-widest order. -/
def narrowestForm (i : Int) : IntForm :=
  (([.tiny, .i8, .i16, .i32, .i64] : List IntForm).find?
    (fun w => formContains w i)).getD .i64

/-- The integer form signalled by the leading marker byte of an encoding. -/
def markerForm (bs : List Nat) : Option IntForm :=
  match bs with
  | [] => none
  | m :: _ =>
    if m ≤ 127 ∨ (240 ≤ m ∧ m ≤ 255) then some .tiny
    else if m = 200 then some .i8
    else if m = 201 then some .i16
    else if m = 202 then some .i32
    else if m = 203 then some .i64
    else none

/-- Claim C2: canonical-minimal integer encoding — for every 64-bit signed
integer the encoder's marker byte signals exactly the narrowest integer form
whose range contains the value; in particular 127 encodes as the single tiny
marker byte `0x7F` while 128 takes the three-byte 16-bit form. -/
theorem c2_minimal_int (i : Int) (h1 : -9223372036854775808 ≤ i)
    (h2 : i ≤ 9223372036854775807) :
    markerForm (encodeInt i) = some (narrowestForm i)
    ∧ encodeValue (.int 127) = .ok [127]
    ∧ encodeValue (.int 128) = .ok [201, 0, 128] := by
  refine ⟨?_, ?_, ?_⟩
  · unfold encodeInt narrowestForm
    split_ifs with ht h8 h16 h32
    · have hm : formContains IntForm.tiny i = true := by
        simp only [formContains, decide_eq_true_eq]
        omega
      have hcon : toUnsigned 1 i ≤ 127 ∨ (240 ≤ toUnsigned 1 i ∧ toUnsigned 1 i ≤ 255) := by
        rw [toUnsigned_1_eq]
        omega
      rw [@List.find?_cons_of_pos IntForm (fun w => formContains w i) IntForm.tiny _ hm]
      simp [markerForm, hcon]
    · have hm : formContains IntForm.tiny i = false := by
        simp only [formContains, decide_eq_false_iff_not]
        omega
      have hm8 : formContains IntForm.i8 i = true := by
        simp only [formContains, decide_eq_true_eq]
        omega
      rw [List.find?_cons_of_neg _ (by simp [hm]), @List.find?_cons_of_pos IntForm (fun w => formContains w i) IntForm.i8 _ hm8]
      simp [markerForm]
    · have hm : formContains IntForm.tiny i = false := by
        simp only [formContains, decide_eq_false_iff_not]
        omega
      have hm8 : formContains IntForm.i8 i = false := by
        simp only [formContains, decide_eq_false_iff_not]
        omega
      have hm16 : formContains IntForm.i16 i = true := by
        simp only [formContains, decide_eq_true_eq]
        omega
      rw [List.find?_cons_of_neg _ (by simp [hm]), List.find?_cons_of_neg _ (by simp [hm8]),
        @List.find?_cons_of_pos IntForm (fun w => formContains w i) IntForm.i16 _ hm16]
      simp [markerForm]
    · have hm : formContains IntForm.tiny i = false := by
        simp only [formContains, decide_eq_false_iff_not]
        omega
      have hm8 : formContains IntForm.i8 i = false := by
        simp only [formContains, decide_eq_false_iff_not]
        omega
      have hm16 : formContains IntForm.i16 i = false := by
        simp only [formContains, decide_eq_false_iff_not]
        omega
      have hm32 : formContains IntForm.i32 i = true := by
        simp only [formContains, decide_eq_true_eq]
        omega
      rw [List.find?_cons_of_neg _ (by simp [hm]), List.find?_cons_of_neg _ (by simp [hm8]),
        List.find?_cons_of_neg _ (by simp [hm16]), @List.find?_cons_of_pos IntForm (fun w => formContains w i) IntForm.i32 _ hm32]
      simp [markerForm]
    · have hm : formContains IntForm.tiny i = false := by
        simp only [formContains, decide_eq_false_iff_not]
        omega
      have hm8 : formContains IntForm.i8 i = false := by
        simp only [formContains, decide_eq_false_iff_not]
        omega
      have hm16 : formContains IntForm.i16 i = false := by
        simp only [formContains, decide_eq_false_iff_not]
        omega
      have hm32 : formContains IntForm.i32 i = false := by
        simp only [formContains, decide_eq_false_iff_not]
        omega
      have hm64 : formContains IntForm.i64 i = true := by
        simp only [formContains, decide_eq_true_eq]
        omega
      rw [List.find?_cons_of_neg _ (by simp [hm]), List.find?_cons_of_neg _ (by simp [hm8]),
        List.find?_cons_of_neg _ (by simp [hm16]), List.find?_cons_of_neg _ (by simp [hm32]),
        @List.find?_cons_of_pos IntForm (fun w => formContains w i) IntForm.i64 _ hm64]
      simp [markerForm]
  · rw [encodeValue.eq_def]
    simp only [Except.ok.injEq]
    decide
  · rw [encodeValue.eq_def]
    simp only [Except.ok.injEq]
    decide

/-- Modelled from the spec: the (possibly non-minimal) encoding of an integer
at a caller-chosen width class. -/
def encodeIntAt : IntForm → Int → List Nat
  | .tiny, i => [toUnsigned 1 i]
  | .i8, i => 200 :: beBytes 1 (toUnsigned 1 i)
  | .i16, i => 201 :: beBytes 2 (toUnsigned 2 i)
  | .i32, i => 202 :: beBytes 4 (toUnsigned 4 i)
  | .i64, i => 203 :: beBytes 8 (toUnsigned 8 i)

/-- Claim C3: permissive integer decode — for every 64-bit signed integer and
every width class containing it, decoding the encoding at that (possibly
non-minimal) width succeeds and returns exactly the integer; sign extension
(never zero extension) recovers negative values. -/
theorem c3_permissive_decode (i : Int) (w : IntForm) (h : formContains w i = true) :
    decode (encodeIntAt w i) = .ok (.int i, (encodeIntAt w i).length) := by
  cases w <;> simp only [formContains, decide_eq_true_eq] at h <;>
    unfold decode encodeIntAt
  · rcases le_or_lt 0 i with hpos | hneg
    · have hm : toUnsigned 1 i ≤ 127 := by rw [toUnsigned_1_eq]; omega
      have hv : ((toUnsigned 1 i : Nat) : Int) = i := by rw [toUnsigned_1_eq]; omega
      rw [decodeValue_tinyPos _ _ _ hm, hv]
      simp
    · have hm1 : 240 ≤ toUnsigned 1 i := by rw [toUnsigned_1_eq]; omega
      have hm2 : toUnsigned 1 i ≤ 255 := by rw [toUnsigned_1_eq]; omega
      have hv : ((toUnsigned 1 i : Nat) : Int) - 256 = i := by rw [toUnsigned_1_eq]; omega
      rw [decodeValue_tinyNeg _ _ _ hm1 hm2, hv]
      simp
  · rw [decodeValue_int8, if_pos (by simp [beBytes_length]),
      List.take_of_length_le (by simp [beBytes_length]),
      beJoin_beBytes_of_lt _ _ (toUnsigned_1_lt i),
      toSigned_toUnsigned_1 i (by omega) (by omega)]
    simp [beBytes_length]
  · rw [decodeValue_int16, if_pos (by simp [beBytes_length]),
      List.take_of_length_le (by simp [beBytes_length]),
      beJoin_beBytes_of_lt _ _ (toUnsigned_2_lt i),
      toSigned_toUnsigned_2 i (by omega) (by omega)]
    simp [beBytes_length]
  · rw [decodeValue_int32, if_pos (by simp [beBytes_length]),
      List.take_of_length_le (by simp [beBytes_length]),
      beJoin_beBytes_of_lt _ _ (toUnsigned_4_lt i),
      toSigned_toUnsigned_4 i (by omega) (by omega)]
    simp [beBytes_length]
  · rw [decodeValue_int64, if_pos (by simp [beBytes_length]),
      List.take_of_length_le (by simp [beBytes_length]),
      beJoin_beBytes_of_lt _ _ (toUnsigned_8_lt i),
      toSigned_toUnsigned_8 i (by omega) (by omega)]
    simp [beBytes_length]

theorem c2_minimal_int_witness :
    markerForm (encodeInt 300) = some (narrowestForm 300)
    ∧ encodeValue (.int 127) = .ok [127]
    ∧ encodeValue (.int 128) = .ok [201, 0, 128] :=
  c2_minimal_int 300 (by decide) (by decide)

theorem c3_permissive_decode_witness :
    formContains .i32 (-1) = true
    ∧ decode (encodeIntAt .i32 (-1)) = .ok (.int (-1), (encodeIntAt .i32 (-1)).length) :=
  ⟨by decide, c3_permissive_decode (-1) .i32 (by decide)⟩

mutual

/-- The encode-failure conditions exactly as the claim's words list them
(String over the 32-bit bound, List/Map with too many elements, Structure with
too many fields — and no clause for Bytes), for comparison with the encoder. -/
def specOversize : Value → Bool
  | .null => false
  | .bool _ => false
  | .int _ => false
  | .float _ => false
  | .bytes _ => false
  | .string s => decide (maxLen < s.length)
  | .list vs => decide (maxLen < vs.length) || specOversizeList vs
  | .map kvs => decide (maxLen < kvs.length) || specOversizePairs kvs
  | .struct _ fs => decide (15 < fs.length) || specOversizeList fs

/-- `specOversize` over list elements. -/
def specOversizeList : List Value → Bool
  | [] => false
  | v :: vs => specOversize v || specOversizeList vs

/-- `specOversize` over map entries (keys being Strings). -/
def specOversizePairs : List (List Nat × Value) → Bool
  | [] => false
  | (k, v) :: ps => decide (maxLen < k.length) || specOversize v || specOversizePairs ps

end

/-- Claim C6 counterexample: a Bytes value of `2 ^ 32` bytes has none of the
claim's listed failure conditions, yet the encoder must and does reject it
(its length does not fit the widest length tier). -/
theorem c6_encode_failure_counterexample :
    encodeValue (.bytes (List.replicate 4294967296 0)) = .error .valueTooLarge
    ∧ specOversize (.bytes (List.replicate 4294967296 0)) = false := by
  have hgen : ∀ bs : List Nat, bs.length = 4294967296 →
      encodeValue (.bytes bs) = .error .valueTooLarge := by
    intro bs hlen
    rw [encodeValue.eq_def]
    simp only []
    rw [hlen, lenHeader]
    unfold maxLen
    norm_num
  constructor
  · exact hgen _ (List.length_replicate _ _)
  · rw [specOversize.eq_def]

/-- Claim C6 (amended): encode(v) fails if and only if v violates a size
invariant — it contains a String (or map key) longer than `2 ^ 32 - 1` bytes,
a Bytes value longer than `2 ^ 32 - 1` bytes, a List or Map with more than
`2 ^ 32 - 1` entries, or a Structure with more than 15 fields; over-long
lengths are signalled as `valueTooLarge` and over-large field counts as the
distinct `tooManyFields` error. -/
theorem c6_encode_failure (v : Value) :
    ((∃ e, encodeValue v = .error e) ↔ sizeOkV v = false)
    ∧ encodeValue (.struct 0 (List.replicate 16 .null)) = .error .tooManyFields
    ∧ encodeValue (.bytes (List.replicate 4294967296 0)) = .error .valueTooLarge := by
  refine ⟨?_, ?_, ?_⟩
  · have hiff := encodeValue_ok_iff v
    cases h : encodeValue v with
    | error e =>
      rw [h] at hiff
      simp at hiff
      simp [hiff]
    | ok bs =>
      rw [h] at hiff
      simp at hiff
      simp [hiff]
  · rw [encodeValue.eq_def]
    simp only [List.length_replicate]
    norm_num
  · have hgen : ∀ bs : List Nat, bs.length = 4294967296 →
        encodeValue (.bytes bs) = .error .valueTooLarge := by
      intro bs hlen
      rw [encodeValue.eq_def]
      simp only []
      rw [hlen, lenHeader]
      unfold maxLen
      norm_num
    exact hgen _ (List.length_replicate _ _)

theorem foldlM_appendElem (vs : List Value) (acc : List Nat) :
    vs.foldlM appendElem acc =
      (match encodeList vs with
      | .error e => .error e
      | .ok body => .ok (acc ++ body) : Except EncodeError (List Nat)) := by
  induction vs generalizing acc with
  | nil =>
    rw [List.foldlM_nil, encodeList.eq_def]
    simp only [List.append_nil]
    rfl
  | cons v vs ih =>
    rw [List.foldlM_cons, encodeList.eq_def]
    simp only []
    cases hv : encodeValue v with
    | error e =>
      simp only [appendElem, hv]
      rfl
    | ok b =>
      simp only [appendElem, hv]
      have hbind : (do
          let init ← (Except.ok (acc ++ b) : Except EncodeError (List Nat))
          List.foldlM appendElem init vs) = List.foldlM appendElem (acc ++ b) vs := rfl
      rw [hbind, ih (acc ++ b)]
      cases encodeList vs with
      | error e => rfl
      | ok body => simp [List.append_assoc]

theorem streamEncodeList_eq (vs : List Value) :
    streamEncodeList vs =
      (match encodeList vs with
      | .error e => .error e
      | .ok body => .ok (215 :: body ++ [223]) : Except EncodeError (List Nat)) := by
  unfold streamEncodeList beginList endList
  rw [foldlM_appendElem]
  cases encodeList vs with
  | error e => rfl
  | ok body => simp

theorem lenHeader_head_ne (tB a b c n : Nat) (hdr : List Nat)
    (h : lenHeader tB a b c n = .ok hdr)
    (htb : ∀ j, j ≤ 15 → tB + j ≠ 223) (ha : a ≠ 223) (hb : b ≠ 223) (hc : c ≠ 223) :
    ∃ m t, hdr = m :: t ∧ m ≠ 223 := by
  unfold lenHeader at h
  split_ifs at h with h1 h2 h3 h4 <;> simp only [Except.ok.injEq] at h <;> subst h
  · exact ⟨tB + n, [], rfl, htb n h1⟩
  · exact ⟨a, _, rfl, ha⟩
  · exact ⟨b, _, rfl, hb⟩
  · exact ⟨c, _, rfl, hc⟩

theorem encode_head_ne_end (v : Value) (bs : List Nat) (h : encodeValue v = .ok bs) :
    ∃ m t, bs = m :: t ∧ m ≠ 223 := by
  cases v with
  | null =>
    rw [encodeValue.eq_def] at h
    simp only [Except.ok.injEq] at h
    subst h
    exact ⟨192, [], rfl, by norm_num⟩
  | bool b =>
    cases b <;> (rw [encodeValue.eq_def] at h; simp only [Except.ok.injEq] at h; subst h)
    · exact ⟨194, [], rfl, by norm_num⟩
    · exact ⟨195, [], rfl, by norm_num⟩
  | int i =>
    rw [encodeValue.eq_def] at h
    simp only [Except.ok.injEq] at h
    subst h
    unfold encodeInt
    split_ifs with ht h8 h16 h32
    · refine ⟨toUnsigned 1 i, [], rfl, ?_⟩
      rw [toUnsigned_1_eq]
      omega
    · exact ⟨200, _, rfl, by norm_num⟩
    · exact ⟨201, _, rfl, by norm_num⟩
    · exact ⟨202, _, rfl, by norm_num⟩
    · exact ⟨203, _, rfl, by norm_num⟩
  | float bits =>
    rw [encodeValue.eq_def] at h
    simp only [Except.ok.injEq] at h
    subst h
    exact ⟨193, _, rfl, by norm_num⟩
  | bytes s =>
    rw [encodeValue.eq_def] at h
    simp only [] at h
    cases hh : lenHeader 224 204 205 206 s.length with
    | error e => rw [hh] at h; simp at h
    | ok hdr =>
      rw [hh] at h
      simp only [Except.ok.injEq] at h
      subst h
      obtain ⟨m, t, hsh, hm⟩ := lenHeader_head_ne 224 204 205 206 s.length hdr hh
        (by intro j hj; omega) (by norm_num) (by norm_num) (by norm_num)
      exact ⟨m, t ++ s, by rw [hsh, List.cons_append], hm⟩
  | string s =>
    rw [encodeValue.eq_def] at h
    simp only [] at h
    unfold encodeStringBytes at h
    cases hh : lenHeader 128 208 209 210 s.length with
    | error e => rw [hh] at h; simp at h
    | ok hdr =>
      rw [hh] at h
      simp only [Except.ok.injEq] at h
      subst h
      obtain ⟨m, t, hsh, hm⟩ := lenHeader_head_ne 128 208 209 210 s.length hdr hh
        (by intro j hj; omega) (by norm_num) (by norm_num) (by norm_num)
      exact ⟨m, t ++ s, by rw [hsh, List.cons_append], hm⟩
  | list vs =>
    rw [encodeValue.eq_def] at h
    simp only [] at h
    cases hh : lenHeader 144 212 213 214 vs.length with
    | error e => rw [hh] at h; simp at h
    | ok hdr =>
      rw [hh] at h
      cases hb : encodeList vs with
      | error e => rw [hb] at h; simp at h
      | ok body =>
        rw [hb] at h
        simp only [Except.ok.injEq] at h
        subst h
        obtain ⟨m, t, hsh, hm⟩ := lenHeader_head_ne 144 212 213 214 vs.length hdr hh
          (by intro j hj; omega) (by norm_num) (by norm_num) (by norm_num)
        exact ⟨m, t ++ body, by rw [hsh, List.cons_append], hm⟩
  | map kvs =>
    rw [encodeValue.eq_def] at h
    simp only [] at h
    cases hh : lenHeader 160 216 217 218 kvs.length with
    | error e => rw [hh] at h; simp at h
    | ok hdr =>
      rw [hh] at h
      cases hb : encodePairs kvs with
      | error e => rw [hb] at h; simp at h
      | ok body =>
        rw [hb] at h
        simp only [Except.ok.injEq] at h
        subst h
        obtain ⟨m, t, hsh, hm⟩ := lenHeader_head_ne 160 216 217 218 kvs.length hdr hh
          (by intro j hj; omega) (by norm_num) (by norm_num) (by norm_num)
        exact ⟨m, t ++ body, by rw [hsh, List.cons_append], hm⟩
  | struct tag fs =>
    rw [encodeValue.eq_def] at h
    simp only [] at h
    split_ifs at h with h15
    cases hb : encodeList fs with
    | error e => rw [hb] at h; simp at h
    | ok body =>
      rw [hb] at h
      simp only [Except.ok.injEq] at h
      subst h
      exact ⟨176 + fs.length, _, rfl, by omega⟩

theorem encodeList_count_le (vs : List Value) (body : List Nat)
    (h : encodeList vs = .ok body) : vs.length ≤ body.length := by
  induction vs generalizing body with
  | nil =>
    rw [encodeList.eq_def] at h
    simp only [Except.ok.injEq] at h
    subst h
    simp
  | cons v vs ih =>
    rw [encodeList.eq_def] at h
    simp only [] at h
    cases hv : encodeValue v with
    | error e => rw [hv] at h; simp at h
    | ok b =>
      rw [hv] at h
      cases hb : encodeList vs with
      | error e => rw [hb] at h; simp at h
      | ok bs2 =>
        rw [hb] at h
        simp only [Except.ok.injEq] at h
        subst h
        obtain ⟨m, t, hsh, _⟩ := encode_head_ne_end v b hv
        have := ih bs2 hb
        simp [hsh]
        omega

theorem srtElems (d : Nat) (vs : List Value) :
    ∀ body c rest, typeOkList vs = true → depthList vs ≤ d →
      encodeList vs = .ok body → vs.length ≤ c →
      decodeStreamElems d c (body ++ 223 :: rest) = .ok (vs, body.length + 1) := by
  induction vs with
  | nil =>
    intro body c rest _ _ he hc
    rw [encodeList.eq_def] at he
    simp only [Except.ok.injEq] at he
    subst he
    simp [decodeStreamElems_end]
  | cons v vs ih =>
    intro body c rest htl hdl he hc
    rw [encodeList.eq_def] at he
    simp only [] at he
    cases hv : encodeValue v with
    | error e => rw [hv] at he; simp at he
    | ok b =>
      rw [hv] at he
      cases hb : encodeList vs with
      | error e => rw [hb] at he; simp at he
      | ok body2 =>
        rw [hb] at he
        simp only [Except.ok.injEq] at he
        subst he
        rw [typeOkList.eq_def] at htl
        simp only [Bool.and_eq_true] at htl
        rw [depthList.eq_def] at hdl
        simp only [max_le_iff] at hdl
        obtain ⟨m, t, hsh, hm⟩ := encode_head_ne_end v b hv
        subst hsh
        simp only [List.cons_append, List.append_assoc, List.length_cons] at hc ⊢
        rw [decodeStreamElems_cons d c m _ hm, if_neg (by omega)]
        have hval := (rtAll d).1 v (m :: t) (body2 ++ 223 :: rest) htl.1 hdl.1 hv
        rw [List.cons_append] at hval
        rw [hval]
        simp only []
        have hdrop : (m :: (t ++ (body2 ++ 223 :: rest))).drop (m :: t).length =
            body2 ++ 223 :: rest := by
          rw [← List.cons_append]
          exact List.drop_left _ _
        rw [hdrop, ih body2 (c - 1) rest htl.2 hdl.2 hb (by omega)]
        simp [List.length_append]
        omega

/-- Claim C7 (amended): streaming/fixed-length equivalence — for every finite
sequence of machine-representable Values whose nesting stays strictly within
the decoder depth bound, the bytes produced by
`begin_list` / `append` each / `end_list` decode to exactly the same List
Value as the fixed-length encoding of the same list; the streamed bytes begin
with the unknown-length list marker and end with the sentinel end marker. -/
theorem c7_stream_equiv (vs : List Value) (sb fb : List Nat)
    (ht : typeOkList vs = true) (hd : depthList vs < depthLimit)
    (hs : streamEncodeList vs = .ok sb) (hf : encodeValue (.list vs) = .ok fb) :
    decode sb = .ok (.list vs, sb.length)
    ∧ decode fb = .ok (.list vs, fb.length)
    ∧ sb.head? = some 215
    ∧ sb.getLast? = some 223 := by
  rw [streamEncodeList_eq] at hs
  cases hb : encodeList vs with
  | error e => rw [hb] at hs; simp at hs
  | ok body =>
    rw [hb] at hs
    simp only [Except.ok.injEq] at hs
    subst hs
    have htv : typeOk (.list vs) = true := by
      rw [typeOk.eq_def]
      exact ht
    have hdv : depthOf (.list vs) ≤ depthLimit := by
      rw [depthOf.eq_def]
      simp only []
      omega
    refine ⟨?_, roundtrip_value (.list vs) fb htv hdv hf, by simp, ?_⟩
    · unfold decode
      rw [List.cons_append, decodeValue_streamList, if_neg (by unfold depthLimit; omega)]
      have hcount := encodeList_count_le vs body hb
      have hstream := srtElems (depthLimit - 1) vs body (body ++ [223]).length []
        ht (by omega) hb (by simp; omega)
      rw [hstream]
      simp
      omega
    · rw [List.cons_append, ← List.cons_append]
      exact List.getLast?_concat _

theorem decodeStream_deep (d c : Nat) (input : List Nat) (hc : c ≠ 0) :
    decodeStreamElems d c (List.replicate (d + 1) 145 ++ input) =
      .error (.malformed .tooDeep) := by
  rw [List.replicate_succ, List.cons_append,
    decodeStreamElems_cons _ _ _ _ (by norm_num), if_neg hc]
  have h := decode_deep_tooDeep d input
  rw [List.replicate_succ, List.cons_append] at h
  rw [h]

/-- Claim C7 counterexample: streaming a single element nested 1025 deep
produces a byte stream that the decoder rejects with the `tooDeep` error, so
it does not decode to any List Value at all. -/
theorem c7_stream_equiv_counterexample :
    streamEncodeList [deepNest 1025] =
      .ok (215 :: (List.replicate 1025 145 ++ [192]) ++ [223])
    ∧ decode (215 :: (List.replicate 1025 145 ++ [192]) ++ [223]) =
      .error (.malformed .tooDeep) := by
  have henc : encodeList [deepNest 1025] = .ok (List.replicate 1025 145 ++ [192]) := by
    rw [encodeList.eq_def]
    simp only [encode_deepNest 1025]
    rw [encodeList.eq_def]
    simp
  constructor
  · rw [streamEncodeList_eq, henc]
  · have hre : (List.replicate 1025 (145 : Nat) ++ [192]) ++ [223] =
        List.replicate 1024 145 ++ (145 :: ([192] ++ [223])) := by
      rw [show (1025 : Nat) = 1024 + 1 from rfl, List.replicate_succ']
      simp
    unfold decode
    rw [List.cons_append, decodeValue_streamList,
      if_neg (by unfold depthLimit; norm_num), hre]
    have hdeep := decodeStream_deep (depthLimit - 1)
      (List.replicate 1024 145 ++ (145 :: ([192] ++ [223]))).length
      (145 :: ([192] ++ [223])) (by simp)
    rw [show depthLimit - 1 + 1 = 1024 from by unfold depthLimit; norm_num] at hdeep
    rw [hdeep]

theorem c7_stream_equiv_witness :
    typeOkList [.int 1, .int 2, .int 3] = true
    ∧ depthList [.int 1, .int 2, .int 3] < depthLimit
    ∧ streamEncodeList [.int 1, .int 2, .int 3] = .ok [215, 1, 2, 3, 223]
    ∧ encodeValue (.list [.int 1, .int 2, .int 3]) = .ok [147, 1, 2, 3]
    ∧ decode [215, 1, 2, 3, 223] = .ok (.list [.int 1, .int 2, .int 3], 5)
    ∧ decode [147, 1, 2, 3] = .ok (.list [.int 1, .int 2, .int 3], 4) := by
  have henc : encodeList [.int 1, .int 2, .int 3] = .ok [1, 2, 3] := by
    simp [encodeList, encodeValue, encodeInt, toUnsigned_1_eq]
  have h1 : typeOkList [Value.int 1, .int 2, .int 3] = true := by
    simp [typeOkList, typeOk]
  have h2 : depthList [Value.int 1, .int 2, .int 3] < depthLimit := by
    simp [depthList, depthOf, depthLimit]
  have h3 : streamEncodeList [Value.int 1, .int 2, .int 3] = .ok [215, 1, 2, 3, 223] := by
    rw [streamEncodeList_eq, henc]
    rfl
  have h4 : encodeValue (.list [.int 1, .int 2, .int 3]) = .ok [147, 1, 2, 3] := by
    rw [encodeValue.eq_def]
    simp only [henc]
    rw [lenHeader]
    norm_num
  have hmain := c7_stream_equiv [.int 1, .int 2, .int 3] [215, 1, 2, 3, 223]
    [147, 1, 2, 3] h1 h2 h3 h4
  exact ⟨h1, h2, h3, h4, by simpa using hmain.1, by simpa using hmain.2.1⟩

/-- Structural facts about a successful `decodeValue` run: it consumes at
least the marker, never more than the input, truncating the consumed bytes
yields `needMoreInput`, and extending the available prefix does not change the
result. -/
def ValueSpec (d : Nat) : Prop :=
  ∀ input v k, decodeValue d input = .ok (v, k) →
    1 ≤ k ∧ k ≤ input.length
    ∧ (∀ j, j < k → decodeValue d (input.take j) = .error .needMoreInput)
    ∧ (∀ j, k ≤ j → decodeValue d (input.take j) = .ok (v, k))

/-- `ValueSpec` analogue for `decodeElems`. -/
def ElemsSpec (d : Nat) : Prop :=
  ∀ n input vs k, decodeElems d n input = .ok (vs, k) →
    k ≤ input.length
    ∧ (∀ j, j < k → decodeElems d n (input.take j) = .error .needMoreInput)
    ∧ (∀ j, k ≤ j → decodeElems d n (input.take j) = .ok (vs, k))

/-- `ValueSpec` analogue for `decodePairs`. -/
def PairsSpec (d : Nat) : Prop :=
  ∀ n input ps k, decodePairs d n input = .ok (ps, k) →
    k ≤ input.length
    ∧ (∀ j, j < k → decodePairs d n (input.take j) = .error .needMoreInput)
    ∧ (∀ j, k ≤ j → decodePairs d n (input.take j) = .ok (ps, k))

/-- `ValueSpec` analogue for `decodeStreamElems`; prefix truncation holds for
any budget at least the prefix length, and stability for any budget at least
the element count. -/
def StreamESpec (d : Nat) : Prop :=
  ∀ c input vs k, decodeStreamElems d c input = .ok (vs, k) →
    1 ≤ k ∧ k ≤ input.length ∧ vs.length + 1 ≤ k
    ∧ (∀ j c', j < k → j ≤ c' →
        decodeStreamElems d c' (input.take j) = .error .needMoreInput)
    ∧ (∀ j c', k ≤ j → vs.length ≤ c' →
        decodeStreamElems d c' (input.take j) = .ok (vs, k))

/-- `ValueSpec` analogue for `decodeStreamPairs`. -/
def StreamPSpec (d : Nat) : Prop :=
  ∀ c input ps k, decodeStreamPairs d c input = .ok (ps, k) →
    1 ≤ k ∧ k ≤ input.length ∧ ps.length + 1 ≤ k
    ∧ (∀ j c', j < k → j ≤ c' →
        decodeStreamPairs d c' (input.take j) = .error .needMoreInput)
    ∧ (∀ j c', k ≤ j → ps.length ≤ c' →
        decodeStreamPairs d c' (input.take j) = .ok (ps, k))

theorem elemsSpec_of (d : Nat) (hv : ValueSpec d) : ElemsSpec d := by
  intro n
  induction n with
  | zero =>
    intro input vs k h
    rw [decodeElems_zero] at h
    simp only [Except.ok.injEq, Prod.mk.injEq] at h
    obtain ⟨rfl, rfl⟩ := h
    refine ⟨by omega, by omega, fun j hj => ?_⟩
    rw [decodeElems_zero]
  | succ n ih =>
    intro input vs k h
    rw [decodeElems_succ] at h
    cases hv1 : decodeValue d input with
    | error e => rw [hv1] at h; simp at h
    | ok p =>
      obtain ⟨v1, k1⟩ := p
      rw [hv1] at h
      simp only [] at h
      cases hrest : decodeElems d n (input.drop k1) with
      | error e => rw [hrest] at h; simp at h
      | ok q =>
        obtain ⟨vs2, k2⟩ := q
        rw [hrest] at h
        simp only [Except.ok.injEq, Prod.mk.injEq] at h
        obtain ⟨rfl, rfl⟩ := h
        obtain ⟨hk1pos, hk1le, hP1, hS1⟩ := hv input v1 k1 hv1
        obtain ⟨hk2le, hP2, hS2⟩ := ih (input.drop k1) vs2 k2 hrest
        rw [List.length_drop] at hk2le
        refine ⟨by omega, ?_, ?_⟩
        · intro j hj
          rw [decodeElems_succ]
          by_cases hj1 : j < k1
          · rw [hP1 j hj1]
          · rw [hS1 j (by omega)]
            simp only []
            rw [List.drop_take, hP2 (j - k1) (by omega)]
        · intro j hj
          rw [decodeElems_succ, hS1 j (by omega)]
          simp only []
          rw [List.drop_take, hS2 (j - k1) (by omega)]

theorem pairsSpec_of (d : Nat) (hv : ValueSpec d) : PairsSpec d := by
  intro n
  induction n with
  | zero =>
    intro input ps k h
    rw [decodePairs_zero] at h
    simp only [Except.ok.injEq, Prod.mk.injEq] at h
    obtain ⟨rfl, rfl⟩ := h
    refine ⟨by omega, by omega, fun j hj => ?_⟩
    rw [decodePairs_zero]
  | succ n ih =>
    intro input ps k h
    rw [decodePairs_succ] at h
    cases hv1 : decodeValue d input with
    | error e => rw [hv1] at h; simp at h
    | ok p =>
      obtain ⟨v1, k1⟩ := p
      rw [hv1] at h
      cases v1 with
      | string s =>
        simp only [] at h
        cases hv2 : decodeValue d (input.drop k1) with
        | error e => rw [hv2] at h; simp at h
        | ok q =>
          obtain ⟨v2, k2⟩ := q
          rw [hv2] at h
          simp only [] at h
          cases hrest : decodePairs d n (input.drop (k1 + k2)) with
          | error e => rw [hrest] at h; simp at h
          | ok r =>
            obtain ⟨ps2, k3⟩ := r
            rw [hrest] at h
            simp only [Except.ok.injEq, Prod.mk.injEq] at h
            obtain ⟨rfl, rfl⟩ := h
            obtain ⟨hk1pos, hk1le, hP1, hS1⟩ := hv input (.string s) k1 hv1
            obtain ⟨hk2pos, hk2le, hP2, hS2⟩ := hv (input.drop k1) v2 k2 hv2
            obtain ⟨hk3le, hP3, hS3⟩ := ih (input.drop (k1 + k2)) ps2 k3 hrest
            rw [List.length_drop] at hk2le hk3le
            refine ⟨by omega, ?_, ?_⟩
            · intro j hj
              rw [decodePairs_succ]
              by_cases hj1 : j < k1
              · rw [hP1 j hj1]
              · rw [hS1 j (by omega)]
                simp only []
                by_cases hj2 : j - k1 < k2
                · rw [List.drop_take, hP2 (j - k1) hj2]
                · rw [List.drop_take, hS2 (j - k1) (by omega)]
                  simp only []
                  rw [List.drop_take, hP3 (j - (k1 + k2)) (by omega)]
            · intro j hj
              rw [decodePairs_succ, hS1 j (by omega)]
              simp only []
              rw [List.drop_take, hS2 (j - k1) (by omega)]
              simp only []
              rw [List.drop_take, hS3 (j - (k1 + k2)) (by omega)]
      | null => simp at h
      | bool b => simp at h
      | int i => simp at h
      | float bits => simp at h
      | bytes bs => simp at h
      | list vs => simp at h
      | map kvs => simp at h
      | struct tag fs => simp at h

theorem streamESpec_of (d : Nat) (hv : ValueSpec d) : StreamESpec d := by
  intro c
  induction c with
  | zero =>
    intro input vs k h
    cases input with
    | nil => rw [decodeStreamElems_nil] at h; simp at h
    | cons b rest =>
      by_cases hb : b = 223
      · rw [decodeStreamElems_end d 0 b rest hb] at h
        simp only [Except.ok.injEq, Prod.mk.injEq] at h
        obtain ⟨rfl, rfl⟩ := h
        refine ⟨by omega, by simp, by simp, ?_, ?_⟩
        · intro j c' hj hjc
          have : j = 0 := by omega
          subst this
          rw [List.take_zero, decodeStreamElems_nil]
        · intro j c' hj hc'
          obtain ⟨j', rfl⟩ : ∃ j', j = j' + 1 := ⟨j - 1, by omega⟩
          rw [List.take_succ_cons, decodeStreamElems_end d c' b _ hb]
      · rw [decodeStreamElems_cons d 0 b rest hb, if_pos rfl] at h
        simp at h
  | succ c ih =>
    intro input vs k h
    cases input with
    | nil => rw [decodeStreamElems_nil] at h; simp at h
    | cons b rest =>
      by_cases hb : b = 223
      · rw [decodeStreamElems_end d (c + 1) b rest hb] at h
        simp only [Except.ok.injEq, Prod.mk.injEq] at h
        obtain ⟨rfl, rfl⟩ := h
        refine ⟨by omega, by simp, by simp, ?_, ?_⟩
        · intro j c' hj hjc
          have : j = 0 := by omega
          subst this
          rw [List.take_zero, decodeStreamElems_nil]
        · intro j c' hj hc'
          obtain ⟨j', rfl⟩ : ∃ j', j = j' + 1 := ⟨j - 1, by omega⟩
          rw [List.take_succ_cons, decodeStreamElems_end d c' b _ hb]
      · rw [decodeStreamElems_cons d (c + 1) b rest hb, if_neg (by omega)] at h
        simp only [Nat.add_sub_cancel] at h
        cases hv1 : decodeValue d (b :: rest) with
        | error e => rw [hv1] at h; simp at h
        | ok p =>
          obtain ⟨v1, k1⟩ := p
          rw [hv1] at h
          simp only [] at h
          cases hrest : decodeStreamElems d c ((b :: rest).drop k1) with
          | error e => rw [hrest] at h; simp at h
          | ok q =>
            obtain ⟨vs2, k2⟩ := q
            rw [hrest] at h
            simp only [Except.ok.injEq, Prod.mk.injEq] at h
            obtain ⟨rfl, rfl⟩ := h
            obtain ⟨hk1pos, hk1le, hP1, hS1⟩ := hv (b :: rest) v1 k1 hv1
            obtain ⟨hk2pos, hk2le, hcnt2, hP2, hS2⟩ := ih ((b :: rest).drop k1) vs2 k2 hrest
            rw [List.length_drop] at hk2le
            simp only [List.length_cons] at hk1le hk2le
            refine ⟨by omega, by simp; omega, by simp; omega, ?_, ?_⟩
            · intro j c' hj hjc
              cases j with
              | zero => rw [List.take_zero, decodeStreamElems_nil]
              | succ j' =>
                rw [List.take_succ_cons, decodeStreamElems_cons d c' b _ hb,
                  if_neg (by omega), ← List.take_succ_cons]
                by_cases hj1 : j' + 1 < k1
                · rw [hP1 (j' + 1) hj1]
                · rw [hS1 (j' + 1) (by omega)]
                  simp only []
                  rw [List.drop_take, hP2 (j' + 1 - k1) (c' - 1) (by omega) (by omega)]
            · intro j c' hj hc'
              simp only [List.length_cons] at hc'
              cases j with
              | zero => omega
              | succ j' =>
                rw [List.take_succ_cons, decodeStreamElems_cons d c' b _ hb,
                  if_neg (by omega), ← List.take_succ_cons]
                rw [hS1 (j' + 1) (by omega)]
                simp only []
                rw [List.drop_take, hS2 (j' + 1 - k1) (c' - 1) (by omega) (by omega)]

theorem streamPSpec_of (d : Nat) (hv : ValueSpec d) : StreamPSpec d := by
  intro c
  induction c with
  | zero =>
    intro input ps k h
    cases input with
    | nil => rw [decodeStreamPairs_nil] at h; simp at h
    | cons b rest =>
      by_cases hb : b = 223
      · rw [decodeStreamPairs_end d 0 b rest hb] at h
        simp only [Except.ok.injEq, Prod.mk.injEq] at h
        obtain ⟨rfl, rfl⟩ := h
        refine ⟨by omega, by simp, by simp, ?_, ?_⟩
        · intro j c' hj hjc
          have : j = 0 := by omega
          subst this
          rw [List.take_zero, decodeStreamPairs_nil]
        · intro j c' hj hc'
          obtain ⟨j', rfl⟩ : ∃ j', j = j' + 1 := ⟨j - 1, by omega⟩
          rw [List.take_succ_cons, decodeStreamPairs_end d c' b _ hb]
      · rw [decodeStreamPairs_cons d 0 b rest hb, if_pos rfl] at h
        simp at h
  | succ c ih =>
    intro input ps k h
    cases input with
    | nil => rw [decodeStreamPairs_nil] at h; simp at h
    | cons b rest =>
      by_cases hb : b = 223
      · rw [decodeStreamPairs_end d (c + 1) b rest hb] at h
        simp only [Except.ok.injEq, Prod.mk.injEq] at h
        obtain ⟨rfl, rfl⟩ := h
        refine ⟨by omega, by simp, by simp, ?_, ?_⟩
        · intro j c' hj hjc
          have : j = 0 := by omega
          subst this
          rw [List.take_zero, decodeStreamPairs_nil]
        · intro j c' hj hc'
          obtain ⟨j', rfl⟩ : ∃ j', j = j' + 1 := ⟨j - 1, by omega⟩
          rw [List.take_succ_cons, decodeStreamPairs_end d c' b _ hb]
      · rw [decodeStreamPairs_cons d (c + 1) b rest hb, if_neg (by omega)] at h
        simp only [Nat.add_sub_cancel] at h
        cases hv1 : decodeValue d (b :: rest) with
        | error e => rw [hv1] at h; simp at h
        | ok p =>
          obtain ⟨v1, k1⟩ := p
          rw [hv1] at h
          cases v1 with
          | string s =>
            simp only [] at h
            cases hv2 : decodeValue d ((b :: rest).drop k1) with
            | error e => rw [hv2] at h; simp at h
            | ok q =>
              obtain ⟨v2, k2⟩ := q
              rw [hv2] at h
              simp only [] at h
              cases hrest : decodeStreamPairs d c ((b :: rest).drop (k1 + k2)) with
              | error e => rw [hrest] at h; simp at h
              | ok r =>
                obtain ⟨ps2, k3⟩ := r
                rw [hrest] at h
                simp only [Except.ok.injEq, Prod.mk.injEq] at h
                obtain ⟨rfl, rfl⟩ := h
                obtain ⟨hk1pos, hk1le, hP1, hS1⟩ := hv (b :: rest) (.string s) k1 hv1
                obtain ⟨hk2pos, hk2le, hP2, hS2⟩ := hv ((b :: rest).drop k1) v2 k2 hv2
                obtain ⟨hk3pos, hk3le, hcnt3, hP3, hS3⟩ :=
                  ih ((b :: rest).drop (k1 + k2)) ps2 k3 hrest
                rw [List.length_drop] at hk2le hk3le
                simp only [List.length_cons] at hk1le hk2le hk3le
                refine ⟨by omega, by simp; omega, by simp; omega, ?_, ?_⟩
                · intro j c' hj hjc
                  cases j with
                  | zero => rw [List.take_zero, decodeStreamPairs_nil]
                  | succ j' =>
                    rw [List.take_succ_cons, decodeStreamPairs_cons d c' b _ hb,
                      if_neg (by omega), ← List.take_succ_cons]
                    by_cases hj1 : j' + 1 < k1
                    · rw [hP1 (j' + 1) hj1]
                    · rw [hS1 (j' + 1) (by omega)]
                      simp only []
                      by_cases hj2 : j' + 1 - k1 < k2
                      · rw [List.drop_take, hP2 (j' + 1 - k1) hj2]
                      · rw [List.drop_take, hS2 (j' + 1 - k1) (by omega)]
                        simp only []
                        rw [List.drop_take,
                          hP3 (j' + 1 - (k1 + k2)) (c' - 1) (by omega) (by omega)]
                · intro j c' hj hc'
                  simp only [List.length_cons] at hc'
                  cases j with
                  | zero => omega
                  | succ j' =>
                    rw [List.take_succ_cons, decodeStreamPairs_cons d c' b _ hb,
                      if_neg (by omega), ← List.take_succ_cons]
                    rw [hS1 (j' + 1) (by omega)]
                    simp only []
                    rw [List.drop_take, hS2 (j' + 1 - k1) (by omega)]
                    simp only []
                    rw [List.drop_take,
                      hS3 (j' + 1 - (k1 + k2)) (c' - 1) (by omega) (by omega)]
          | null => simp at h
          | bool bb => simp at h
          | int i => simp at h
          | float bits => simp at h
          | bytes bs2 => simp at h
          | list vs2 => simp at h
          | map kvs2 => simp at h
          | struct tag fs => simp at h

theorem svHeadRead (d M w : Nat) (H : List Nat → Value) (rest : List Nat)
    (hdisp : ∀ r : List Nat, decodeValue d (M :: r) =
      if w ≤ r.length then .ok (H (r.take w), 1 + w) else .error .needMoreInput)
    (v : Value) (k : Nat) (h : decodeValue d (M :: rest) = .ok (v, k)) :
    1 ≤ k ∧ k ≤ (M :: rest).length
    ∧ (∀ j, j < k → decodeValue d ((M :: rest).take j) = .error .needMoreInput)
    ∧ (∀ j, k ≤ j → decodeValue d ((M :: rest).take j) = .ok (v, k)) := by
  rw [hdisp rest] at h
  by_cases hw : w ≤ rest.length
  · rw [if_pos hw] at h
    simp only [Except.ok.injEq, Prod.mk.injEq] at h
    obtain ⟨rfl, rfl⟩ := h
    refine ⟨by omega, by simp; omega, ?_, ?_⟩
    · intro j hj
      cases j with
      | zero => rw [List.take_zero, decodeValue_nil]
      | succ j' =>
        rw [List.take_succ_cons, hdisp (rest.take j'),
          if_neg (by simp [List.length_take]; omega)]
    · intro j hj
      obtain ⟨j', rfl⟩ : ∃ j', j = j' + 1 := ⟨j - 1, by omega⟩
      rw [List.take_succ_cons, hdisp (rest.take j'),
        if_pos (by simp [List.length_take]; omega),
        List.take_take, min_eq_left (by omega)]
  · rw [if_neg hw] at h
    simp at h

theorem svSizedRead (d M w : Nat) (mk : List Nat → Value) (rest : List Nat)
    (hdisp : ∀ r : List Nat, decodeValue d (M :: r) = readSized w r mk)
    (v : Value) (k : Nat) (h : decodeValue d (M :: rest) = .ok (v, k)) :
    1 ≤ k ∧ k ≤ (M :: rest).length
    ∧ (∀ j, j < k → decodeValue d ((M :: rest).take j) = .error .needMoreInput)
    ∧ (∀ j, k ≤ j → decodeValue d ((M :: rest).take j) = .ok (v, k)) := by
  rw [hdisp rest] at h
  unfold readSized at h
  by_cases hw : w ≤ rest.length
  · rw [if_pos hw] at h
    by_cases hn : beJoin (rest.take w) ≤ (rest.drop w).length
    · rw [if_pos hn] at h
      simp only [Except.ok.injEq, Prod.mk.injEq] at h
      obtain ⟨rfl, rfl⟩ := h
      rw [List.length_drop] at hn
      refine ⟨by omega, by simp; omega, ?_, ?_⟩
      · intro j hj
        cases j with
        | zero => rw [List.take_zero, decodeValue_nil]
        | succ j' =>
          rw [List.take_succ_cons, hdisp (rest.take j')]
          unfold readSized
          by_cases hj1 : j' < w
          · rw [if_neg (by simp [List.length_take]; omega)]
          · rw [if_pos (by simp [List.length_take]; omega),
              List.take_take, min_eq_left (by omega),
              if_neg (by simp [List.drop_take, List.length_take, List.length_drop]; omega)]
      · intro j hj
        obtain ⟨j', rfl⟩ : ∃ j', j = j' + 1 := ⟨j - 1, by omega⟩
        rw [List.take_succ_cons, hdisp (rest.take j')]
        unfold readSized
        rw [if_pos (by simp [List.length_take]; omega),
          List.take_take, min_eq_left (by omega),
          if_pos (by simp [List.drop_take, List.length_take, List.length_drop]; omega),
          List.drop_take, List.take_take, min_eq_left (by omega)]
    · rw [if_neg hn] at h
      simp at h
  · rw [if_neg hw] at h
    simp at h

theorem valueSpec_step (d : Nat)
    (hE : d ≠ 0 → ElemsSpec (d - 1)) (hP : d ≠ 0 → PairsSpec (d - 1))
    (hSE : d ≠ 0 → StreamESpec (d - 1)) (hSP : d ≠ 0 → StreamPSpec (d - 1)) :
    ValueSpec d := by
  intro input v k h
  cases input with
  | nil => rw [decodeValue_nil] at h; simp at h
  | cons m rest =>
  by_cases h1 : m ≤ 127
  · rw [decodeValue_tinyPos d m rest h1] at h
    simp only [Except.ok.injEq, Prod.mk.injEq] at h
    obtain ⟨rfl, rfl⟩ := h
    refine ⟨by omega, by simp, ?_, ?_⟩
    · intro j hj
      have hj0 : j = 0 := by omega
      subst hj0
      rw [List.take_zero, decodeValue_nil]
    · intro j hj
      obtain ⟨j', rfl⟩ : ∃ j', j = j' + 1 := ⟨j - 1, by omega⟩
      rw [List.take_succ_cons, decodeValue_tinyPos d m _ h1]
  by_cases h2 : 240 ≤ m ∧ m ≤ 255
  · rw [decodeValue_tinyNeg d m rest h2.1 h2.2] at h
    simp only [Except.ok.injEq, Prod.mk.injEq] at h
    obtain ⟨rfl, rfl⟩ := h
    refine ⟨by omega, by simp, ?_, ?_⟩
    · intro j hj
      have hj0 : j = 0 := by omega
      subst hj0
      rw [List.take_zero, decodeValue_nil]
    · intro j hj
      obtain ⟨j', rfl⟩ : ∃ j', j = j' + 1 := ⟨j - 1, by omega⟩
      rw [List.take_succ_cons, decodeValue_tinyNeg d m _ h2.1 h2.2]
  by_cases h3 : 128 ≤ m ∧ m ≤ 143
  · obtain ⟨n, rfl, hn⟩ : ∃ n, m = 128 + n ∧ n ≤ 15 := ⟨m - 128, by omega, by omega⟩
    exact svHeadRead d (128 + n) n .string rest
      (fun r => by rw [decodeValue_tinyStr d n r hn]) v k h
  by_cases h4 : 144 ≤ m ∧ m ≤ 159
  · obtain ⟨n, rfl, hn⟩ : ∃ n, m = 144 + n ∧ n ≤ 15 := ⟨m - 144, by omega, by omega⟩
    rw [decodeValue_tinyList d n rest hn] at h
    by_cases hd0 : d = 0
    · rw [if_pos hd0] at h
      simp at h
    · rw [if_neg hd0] at h
      cases hb : decodeElems (d - 1) n rest with
      | error e => rw [hb] at h; simp at h
      | ok p =>
        obtain ⟨vs, k2⟩ := p
        rw [hb] at h
        simp only [Except.ok.injEq, Prod.mk.injEq] at h
        obtain ⟨rfl, rfl⟩ := h
        obtain ⟨hk2le, hP2, hS2⟩ := hE hd0 n rest vs k2 hb
        refine ⟨by omega, by simp; omega, ?_, ?_⟩
        · intro j hj
          cases j with
          | zero => rw [List.take_zero, decodeValue_nil]
          | succ j' =>
            rw [List.take_succ_cons, decodeValue_tinyList d n _ hn, if_neg hd0,
              hP2 j' (by omega)]
        · intro j hj
          obtain ⟨j', rfl⟩ : ∃ j', j = j' + 1 := ⟨j - 1, by omega⟩
          rw [List.take_succ_cons, decodeValue_tinyList d n _ hn, if_neg hd0,
            hS2 j' (by omega)]
  by_cases h5 : 160 ≤ m ∧ m ≤ 175
  · obtain ⟨n, rfl, hn⟩ : ∃ n, m = 160 + n ∧ n ≤ 15 := ⟨m - 160, by omega, by omega⟩
    rw [decodeValue_tinyMap d n rest hn] at h
    by_cases hd0 : d = 0
    · rw [if_pos hd0] at h
      simp at h
    · rw [if_neg hd0] at h
      cases hb : decodePairs (d - 1) n rest with
      | error e => rw [hb] at h; simp at h
      | ok p =>
        obtain ⟨ps, k2⟩ := p
        rw [hb] at h
        simp only [Except.ok.injEq, Prod.mk.injEq] at h
        obtain ⟨rfl, rfl⟩ := h
        obtain ⟨hk2le, hP2, hS2⟩ := hP hd0 n rest ps k2 hb
        refine ⟨by omega, by simp; omega, ?_, ?_⟩
        · intro j hj
          cases j with
          | zero => rw [List.take_zero, decodeValue_nil]
          | succ j' =>
            rw [List.take_succ_cons, decodeValue_tinyMap d n _ hn, if_neg hd0,
              hP2 j' (by omega)]
        · intro j hj
          obtain ⟨j', rfl⟩ : ∃ j', j = j' + 1 := ⟨j - 1, by omega⟩
          rw [List.take_succ_cons, decodeValue_tinyMap d n _ hn, if_neg hd0,
            hS2 j' (by omega)]
  by_cases h6 : 176 ≤ m ∧ m ≤ 191
  · obtain ⟨n, rfl, hn⟩ : ∃ n, m = 176 + n ∧ n ≤ 15 := ⟨m - 176, by omega, by omega⟩
    cases rest with
    | nil =>
      rw [decodeValue_structHdr d n [] hn] at h
      simp at h
    | cons t r2 =>
      rw [decodeValue_structHdr d n (t :: r2) hn,
        if_neg (by simp : ¬(t :: r2).length = 0)] at h
      by_cases hd0 : d = 0
      · rw [if_pos hd0] at h
        simp at h
      · rw [if_neg hd0] at h
        simp only [List.tail_cons, List.headD_cons] at h
        cases hb : decodeElems (d - 1) n r2 with
        | error e => rw [hb] at h; simp at h
        | ok p =>
          obtain ⟨fs, k2⟩ := p
          rw [hb] at h
          simp only [Except.ok.injEq, Prod.mk.injEq] at h
          obtain ⟨rfl, rfl⟩ := h
          obtain ⟨hk2le, hP2, hS2⟩ := hE hd0 n r2 fs k2 hb
          refine ⟨by omega, by simp; omega, ?_, ?_⟩
          · intro j hj
            cases j with
            | zero => rw [List.take_zero, decodeValue_nil]
            | succ j' =>
              cases j' with
              | zero =>
                rw [List.take_succ_cons, List.take_zero,
                  decodeValue_structHdr d n [] hn, if_pos (by simp)]
              | succ j2 =>
                rw [List.take_succ_cons, List.take_succ_cons,
                  decodeValue_structHdr d n (t :: r2.take j2) hn,
                  if_neg (by simp), if_neg hd0]
                simp only [List.tail_cons, List.headD_cons]
                rw [hP2 j2 (by omega)]
          · intro j hj
            obtain ⟨j2, rfl⟩ : ∃ j2, j = j2 + 2 := ⟨j - 2, by omega⟩
            rw [List.take_succ_cons, List.take_succ_cons,
              decodeValue_structHdr d n (t :: r2.take j2) hn,
              if_neg (by simp), if_neg hd0]
            simp only [List.tail_cons, List.headD_cons]
            rw [hS2 j2 (by omega)]
  by_cases h7 : 224 ≤ m ∧ m ≤ 239
  · obtain ⟨n, rfl, hn⟩ : ∃ n, m = 224 + n ∧ n ≤ 15 := ⟨m - 224, by omega, by omega⟩
    exact svHeadRead d (224 + n) n .bytes rest
      (fun r => by rw [decodeValue_tinyBytes d n r hn]) v k h
  by_cases h8 : m = 192
  · subst h8
    rw [decodeValue_null] at h
    simp only [Except.ok.injEq, Prod.mk.injEq] at h
    obtain ⟨rfl, rfl⟩ := h
    refine ⟨by omega, by simp, ?_, ?_⟩
    · intro j hj
      have hj0 : j = 0 := by omega
      subst hj0
      rw [List.take_zero, decodeValue_nil]
    · intro j hj
      obtain ⟨j', rfl⟩ : ∃ j', j = j' + 1 := ⟨j - 1, by omega⟩
      rw [List.take_succ_cons, decodeValue_null]
  by_cases h9 : m = 193
  · subst h9
    exact svHeadRead d 193 8 (fun bs => .float (beJoin bs)) rest
      (fun r => by rw [decodeValue_float d r]) v k h
  by_cases h10 : m = 194
  · subst h10
    rw [decodeValue_false] at h
    simp only [Except.ok.injEq, Prod.mk.injEq] at h
    obtain ⟨rfl, rfl⟩ := h
    refine ⟨by omega, by simp, ?_, ?_⟩
    · intro j hj
      have hj0 : j = 0 := by omega
      subst hj0
      rw [List.take_zero, decodeValue_nil]
    · intro j hj
      obtain ⟨j', rfl⟩ : ∃ j', j = j' + 1 := ⟨j - 1, by omega⟩
      rw [List.take_succ_cons, decodeValue_false]
  by_cases h11 : m = 195
  · subst h11
    rw [decodeValue_true] at h
    simp only [Except.ok.injEq, Prod.mk.injEq] at h
    obtain ⟨rfl, rfl⟩ := h
    refine ⟨by omega, by simp, ?_, ?_⟩
    · intro j hj
      have hj0 : j = 0 := by omega
      subst hj0
      rw [List.take_zero, decodeValue_nil]
    · intro j hj
      obtain ⟨j', rfl⟩ : ∃ j', j = j' + 1 := ⟨j - 1, by omega⟩
      rw [List.take_succ_cons, decodeValue_true]
  by_cases h12 : m = 200
  · subst h12
    exact svHeadRead d 200 1 (fun bs => .int (toSigned 1 (beJoin bs))) rest
      (fun r => by rw [decodeValue_int8 d r]) v k h
  by_cases h13 : m = 201
  · subst h13
    exact svHeadRead d 201 2 (fun bs => .int (toSigned 2 (beJoin bs))) rest
      (fun r => by rw [decodeValue_int16 d r]) v k h
  by_cases h14 : m = 202
  · subst h14
    exact svHeadRead d 202 4 (fun bs => .int (toSigned 4 (beJoin bs))) rest
      (fun r => by rw [decodeValue_int32 d r]) v k h
  by_cases h15 : m = 203
  · subst h15
    exact svHeadRead d 203 8 (fun bs => .int (toSigned 8 (beJoin bs))) rest
      (fun r => by rw [decodeValue_int64 d r]) v k h
  by_cases h16 : m = 204
  · subst h16
    exact svSizedRead d 204 1 .bytes rest (fun r => decodeValue_bytes8 d r) v k h
  by_cases h17 : m = 205
  · subst h17
    exact svSizedRead d 205 2 .bytes rest (fun r => decodeValue_bytes16 d r) v k h
  by_cases h18 : m = 206
  · subst h18
    exact svSizedRead d 206 4 .bytes rest (fun r => decodeValue_bytes32 d r) v k h
  by_cases h19 : m = 208
  · subst h19
    exact svSizedRead d 208 1 .string rest (fun r => decodeValue_str8 d r) v k h
  by_cases h20 : m = 209
  · subst h20
    exact svSizedRead d 209 2 .string rest (fun r => decodeValue_str16 d r) v k h
  by_cases h21 : m = 210
  · subst h21
    exact svSizedRead d 210 4 .string rest (fun r => decodeValue_str32 d r) v k h
  by_cases h22 : m = 212
  · subst h22
    rw [decodeValue_list8] at h
    by_cases hd0 : d = 0
    · rw [if_pos hd0] at h
      simp at h
    · rw [if_neg hd0] at h
      by_cases hw : 1 ≤ rest.length
      · rw [if_pos hw] at h
        cases hb : decodeElems (d - 1) (beJoin (rest.take 1)) (rest.drop 1) with
        | error e => rw [hb] at h; simp at h
        | ok p =>
          obtain ⟨vs, k2⟩ := p
          rw [hb] at h
          simp only [Except.ok.injEq, Prod.mk.injEq] at h
          obtain ⟨rfl, rfl⟩ := h
          obtain ⟨hk2le, hP2, hS2⟩ := hE hd0 _ _ vs k2 hb
          rw [List.length_drop] at hk2le
          refine ⟨by omega, by simp; omega, ?_, ?_⟩
          · intro j hj
            cases j with
            | zero => rw [List.take_zero, decodeValue_nil]
            | succ j' =>
              rw [List.take_succ_cons, decodeValue_list8, if_neg hd0]
              by_cases hj1 : j' < 1
              · rw [if_neg (by simp [List.length_take]; omega)]
              · rw [if_pos (by simp [List.length_take]; omega),
                  List.take_take, min_eq_left (by omega), List.drop_take,
                  hP2 (j' - 1) (by omega)]
          · intro j hj
            obtain ⟨j', rfl⟩ : ∃ j', j = j' + 1 := ⟨j - 1, by omega⟩
            rw [List.take_succ_cons, decodeValue_list8, if_neg hd0,
              if_pos (by simp [List.length_take]; omega),
              List.take_take, min_eq_left (by omega), List.drop_take,
              hS2 (j' - 1) (by omega)]
      · rw [if_neg hw] at h
        simp at h
  by_cases h23 : m = 213
  · subst h23
    rw [decodeValue_list16] at h
    by_cases hd0 : d = 0
    · rw [if_pos hd0] at h
      simp at h
    · rw [if_neg hd0] at h
      by_cases hw : 2 ≤ rest.length
      · rw [if_pos hw] at h
        cases hb : decodeElems (d - 1) (beJoin (rest.take 2)) (rest.drop 2) with
        | error e => rw [hb] at h; simp at h
        | ok p =>
          obtain ⟨vs, k2⟩ := p
          rw [hb] at h
          simp only [Except.ok.injEq, Prod.mk.injEq] at h
          obtain ⟨rfl, rfl⟩ := h
          obtain ⟨hk2le, hP2, hS2⟩ := hE hd0 _ _ vs k2 hb
          rw [List.length_drop] at hk2le
          refine ⟨by omega, by simp; omega, ?_, ?_⟩
          · intro j hj
            cases j with
            | zero => rw [List.take_zero, decodeValue_nil]
            | succ j' =>
              rw [List.take_succ_cons, decodeValue_list16, if_neg hd0]
              by_cases hj1 : j' < 2
              · rw [if_neg (by simp [List.length_take]; omega)]
              · rw [if_pos (by simp [List.length_take]; omega),
                  List.take_take, min_eq_left (by omega), List.drop_take,
                  hP2 (j' - 2) (by omega)]
          · intro j hj
            obtain ⟨j', rfl⟩ : ∃ j', j = j' + 1 := ⟨j - 1, by omega⟩
            rw [List.take_succ_cons, decodeValue_list16, if_neg hd0,
              if_pos (by simp [List.length_take]; omega),
              List.take_take, min_eq_left (by omega), List.drop_take,
              hS2 (j' - 2) (by omega)]
      · rw [if_neg hw] at h
        simp at h
  by_cases h24 : m = 214
  · subst h24
    rw [decodeValue_list32] at h
    by_cases hd0 : d = 0
    · rw [if_pos hd0] at h
      simp at h
    · rw [if_neg hd0] at h
      by_cases hw : 4 ≤ rest.length
      · rw [if_pos hw] at h
        cases hb : decodeElems (d - 1) (beJoin (rest.take 4)) (rest.drop 4) with
        | error e => rw [hb] at h; simp at h
        | ok p =>
          obtain ⟨vs, k2⟩ := p
          rw [hb] at h
          simp only [Except.ok.injEq, Prod.mk.injEq] at h
          obtain ⟨rfl, rfl⟩ := h
          obtain ⟨hk2le, hP2, hS2⟩ := hE hd0 _ _ vs k2 hb
          rw [List.length_drop] at hk2le
          refine ⟨by omega, by simp; omega, ?_, ?_⟩
          · intro j hj
            cases j with
            | zero => rw [List.take_zero, decodeValue_nil]
            | succ j' =>
              rw [List.take_succ_cons, decodeValue_list32, if_neg hd0]
              by_cases hj1 : j' < 4
              · rw [if_neg (by simp [List.length_take]; omega)]
              · rw [if_pos (by simp [List.length_take]; omega),
                  List.take_take, min_eq_left (by omega), List.drop_take,
                  hP2 (j' - 4) (by omega)]
          · intro j hj
            obtain ⟨j', rfl⟩ : ∃ j', j = j' + 1 := ⟨j - 1, by omega⟩
            rw [List.take_succ_cons, decodeValue_list32, if_neg hd0,
              if_pos (by simp [List.length_take]; omega),
              List.take_take, min_eq_left (by omega), List.drop_take,
              hS2 (j' - 4) (by omega)]
      · rw [if_neg hw] at h
        simp at h
  by_cases h25 : m = 215
  · subst h25
    rw [decodeValue_streamList] at h
    by_cases hd0 : d = 0
    · rw [if_pos hd0] at h
      simp at h
    · rw [if_neg hd0] at h
      cases hb : decodeStreamElems (d - 1) rest.length rest with
      | error e => rw [hb] at h; simp at h
      | ok p =>
        obtain ⟨vs, k2⟩ := p
        rw [hb] at h
        simp only [Except.ok.injEq, Prod.mk.injEq] at h
        obtain ⟨rfl, rfl⟩ := h
        obtain ⟨hk2pos, hk2le, hcnt, hP2, hS2⟩ := hSE hd0 rest.length rest vs k2 hb
        refine ⟨by omega, by simp; omega, ?_, ?_⟩
        · intro j hj
          cases j with
          | zero => rw [List.take_zero, decodeValue_nil]
          | succ j' =>
            rw [List.take_succ_cons, decodeValue_streamList, if_neg hd0,
              hP2 j' ((rest.take j').length) (by omega)
                (by simp [List.length_take]; omega)]
        · intro j hj
          obtain ⟨j', rfl⟩ : ∃ j', j = j' + 1 := ⟨j - 1, by omega⟩
          rw [List.take_succ_cons, decodeValue_streamList, if_neg hd0,
            hS2 j' ((rest.take j').length) (by omega)
              (by simp [List.length_take]; omega)]
  by_cases h26 : m = 216
  · subst h26
    rw [decodeValue_map8] at h
    by_cases hd0 : d = 0
    · rw [if_pos hd0] at h
      simp at h
    · rw [if_neg hd0] at h
      by_cases hw : 1 ≤ rest.length
      · rw [if_pos hw] at h
        cases hb : decodePairs (d - 1) (beJoin (rest.take 1)) (rest.drop 1) with
        | error e => rw [hb] at h; simp at h
        | ok p =>
          obtain ⟨ps, k2⟩ := p
          rw [hb] at h
          simp only [Except.ok.injEq, Prod.mk.injEq] at h
          obtain ⟨rfl, rfl⟩ := h
          obtain ⟨hk2le, hP2, hS2⟩ := hP hd0 _ _ ps k2 hb
          rw [List.length_drop] at hk2le
          refine ⟨by omega, by simp; omega, ?_, ?_⟩
          · intro j hj
            cases j with
            | zero => rw [List.take_zero, decodeValue_nil]
            | succ j' =>
              rw [List.take_succ_cons, decodeValue_map8, if_neg hd0]
              by_cases hj1 : j' < 1
              · rw [if_neg (by simp [List.length_take]; omega)]
              · rw [if_pos (by simp [List.length_take]; omega),
                  List.take_take, min_eq_left (by omega), List.drop_take,
                  hP2 (j' - 1) (by omega)]
          · intro j hj
            obtain ⟨j', rfl⟩ : ∃ j', j = j' + 1 := ⟨j - 1, by omega⟩
            rw [List.take_succ_cons, decodeValue_map8, if_neg hd0,
              if_pos (by simp [List.length_take]; omega),
              List.take_take, min_eq_left (by omega), List.drop_take,
              hS2 (j' - 1) (by omega)]
      · rw [if_neg hw] at h
        simp at h
  by_cases h27 : m = 217
  · subst h27
    rw [decodeValue_map16] at h
    by_cases hd0 : d = 0
    · rw [if_pos hd0] at h
      simp at h
    · rw [if_neg hd0] at h
      by_cases hw : 2 ≤ rest.length
      · rw [if_pos hw] at h
        cases hb : decodePairs (d - 1) (beJoin (rest.take 2)) (rest.drop 2) with
        | error e => rw [hb] at h; simp at h
        | ok p =>
          obtain ⟨ps, k2⟩ := p
          rw [hb] at h
          simp only [Except.ok.injEq, Prod.mk.injEq] at h
          obtain ⟨rfl, rfl⟩ := h
          obtain ⟨hk2le, hP2, hS2⟩ := hP hd0 _ _ ps k2 hb
          rw [List.length_drop] at hk2le
          refine ⟨by omega, by simp; omega, ?_, ?_⟩
          · intro j hj
            cases j with
            | zero => rw [List.take_zero, decodeValue_nil]
            | succ j' =>
              rw [List.take_succ_cons, decodeValue_map16, if_neg hd0]
              by_cases hj1 : j' < 2
              · rw [if_neg (by simp [List.length_take]; omega)]
              · rw [if_pos (by simp [List.length_take]; omega),
                  List.take_take, min_eq_left (by omega), List.drop_take,
                  hP2 (j' - 2) (by omega)]
          · intro j hj
            obtain ⟨j', rfl⟩ : ∃ j', j = j' + 1 := ⟨j - 1, by omega⟩
            rw [List.take_succ_cons, decodeValue_map16, if_neg hd0,
              if_pos (by simp [List.length_take]; omega),
              List.take_take, min_eq_left (by omega), List.drop_take,
              hS2 (j' - 2) (by omega)]
      · rw [if_neg hw] at h
        simp at h
  by_cases h28 : m = 218
  · subst h28
    rw [decodeValue_map32] at h
    by_cases hd0 : d = 0
    · rw [if_pos hd0] at h
      simp at h
    · rw [if_neg hd0] at h
      by_cases hw : 4 ≤ rest.length
      · rw [if_pos hw] at h
        cases hb : decodePairs (d - 1) (beJoin (rest.take 4)) (rest.drop 4) with
        | error e => rw [hb] at h; simp at h
        | ok p =>
          obtain ⟨ps, k2⟩ := p
          rw [hb] at h
          simp only [Except.ok.injEq, Prod.mk.injEq] at h
          obtain ⟨rfl, rfl⟩ := h
          obtain ⟨hk2le, hP2, hS2⟩ := hP hd0 _ _ ps k2 hb
          rw [List.length_drop] at hk2le
          refine ⟨by omega, by simp; omega, ?_, ?_⟩
          · intro j hj
            cases j with
            | zero => rw [List.take_zero, decodeValue_nil]
            | succ j' =>
              rw [List.take_succ_cons, decodeValue_map32, if_neg hd0]
              by_cases hj1 : j' < 4
              · rw [if_neg (by simp [List.length_take]; omega)]
              · rw [if_pos (by simp [List.length_take]; omega),
                  List.take_take, min_eq_left (by omega), List.drop_take,
                  hP2 (j' - 4) (by omega)]
          · intro j hj
            obtain ⟨j', rfl⟩ : ∃ j', j = j' + 1 := ⟨j - 1, by omega⟩
            rw [List.take_succ_cons, decodeValue_map32, if_neg hd0,
              if_pos (by simp [List.length_take]; omega),
              List.take_take, min_eq_left (by omega), List.drop_take,
              hS2 (j' - 4) (by omega)]
      · rw [if_neg hw] at h
        simp at h
  by_cases h29 : m = 219
  · subst h29
    rw [decodeValue_streamMap] at h
    by_cases hd0 : d = 0
    · rw [if_pos hd0] at h
      simp at h
    · rw [if_neg hd0] at h
      cases hb : decodeStreamPairs (d - 1) rest.length rest with
      | error e => rw [hb] at h; simp at h
      | ok p =>
        obtain ⟨ps, k2⟩ := p
        rw [hb] at h
        simp only [Except.ok.injEq, Prod.mk.injEq] at h
        obtain ⟨rfl, rfl⟩ := h
        obtain ⟨hk2pos, hk2le, hcnt, hP2, hS2⟩ := hSP hd0 rest.length rest ps k2 hb
        refine ⟨by omega, by simp; omega, ?_, ?_⟩
        · intro j hj
          cases j with
          | zero => rw [List.take_zero, decodeValue_nil]
          | succ j' =>
            rw [List.take_succ_cons, decodeValue_streamMap, if_neg hd0,
              hP2 j' ((rest.take j').length) (by omega)
                (by simp [List.length_take]; omega)]
        · intro j hj
          obtain ⟨j', rfl⟩ : ∃ j', j = j' + 1 := ⟨j - 1, by omega⟩
          rw [List.take_succ_cons, decodeValue_streamMap, if_neg hd0,
            hS2 j' ((rest.take j').length) (by omega)
              (by simp [List.length_take]; omega)]
  by_cases h30 : m = 223
  · subst h30
    rw [decodeValue_endMarker] at h
    simp at h
  · rw [decodeValue.eq_def] at h
    simp only [h1, h2, h3, h4, h5, h6, h7, h8, h9, h10, h11, h12, h13, h14, h15,
      h16, h17, h18, h19, h20, h21, h22, h23, h24, h25, h26, h27, h28, h29, h30,
      if_false, ite_false] at h
    simp at h

theorem valueSpec (d : Nat) : ValueSpec d := by
  induction d with
  | zero =>
    exact valueSpec_step 0 (fun h => absurd rfl h) (fun h => absurd rfl h)
      (fun h => absurd rfl h) (fun h => absurd rfl h)
  | succ d ih =>
    have hd : d + 1 - 1 = d := by omega
    refine valueSpec_step (d + 1) ?_ ?_ ?_ ?_
    · intro _; rw [hd]; exact elemsSpec_of d ih
    · intro _; rw [hd]; exact pairsSpec_of d ih
    · intro _; rw [hd]; exact streamESpec_of d ih
    · intro _; rw [hd]; exact streamPSpec_of d ih

/-- C4: truncation handling — for every byte sequence b that is a complete
valid encoding of some Value (decode succeeds on b consuming all of its
bytes) and every strict, non-empty prefix of b, decode on that prefix
returns the need-more-input signal: never a malformed-input error and never
a (wrong) Value. -/
theorem c4_truncation (b : List Nat) (v : Value)
    (h : decode b = .ok (v, b.length)) (j : Nat) (hj0 : 0 < j)
    (hj : j < b.length) :
    decode (b.take j) = .error .needMoreInput := by
  unfold decode at h ⊢
  obtain ⟨-, -, hPre, -⟩ := valueSpec depthLimit b v b.length h
  exact hPre j hj

theorem c4_truncation_witness :
    decode [129, 65] = .ok (.string [65], [129, 65].length)
    ∧ 0 < 1 ∧ 1 < [129, 65].length
    ∧ decode ([129, 65].take 1) = .error .needMoreInput := by
  have hd : decode [129, 65] = .ok (.string [65], [129, 65].length) := by
    unfold decode
    have h := decodeValue_tinyStr depthLimit 1 [65] (by omega)
    rw [if_pos (by decide)] at h
    exact h
  exact ⟨hd, by decide, by decide,
    c4_truncation [129, 65] (.string [65]) hd 1 (by decide) (by decide)⟩

/-- C5 counterexample: a tiny-string header declaring five payload bytes
followed by only two bytes is answered with the need-more-input signal, not
with a MalformedInput error as the claim states — the declared length
exceeding the remaining input is treated as a truncated input. -/
theorem c5_malformed_length_counterexample :
    decode [133, 0, 0] = .error .needMoreInput
    ∧ ∀ r, decode [133, 0, 0] ≠ .error (.malformed r) := by
  have hd : decode [133, 0, 0] = .error .needMoreInput := by
    unfold decode
    have h := decodeValue_tinyStr depthLimit 5 [0, 0] (by omega)
    rw [if_neg (by decide)] at h
    exact h
  refine ⟨hd, fun r hr => ?_⟩
  rw [hd] at hr
  simp at hr

theorem readSized_short (w : Nat) (rest : List Nat) (mk : List Nat → Value)
    (hw : w ≤ rest.length) (hlen : (rest.drop w).length < beJoin (rest.take w)) :
    readSized w rest mk = .error .needMoreInput := by
  unfold readSized
  rw [if_pos hw]
  simp only []
  rw [if_neg (by omega)]

/-- C5 (amended): a declared length field claiming more payload bytes than
remain in the input makes decode answer with the need-more-input signal —
not MalformedInput — and decode never accounts for bytes past the end of
the supplied input: every successful decode consumes at most input.length
bytes. Stated for the successful-consumption bound and for every string and
bytes length tier (tiny inline, 8-, 16- and 32-bit). -/
theorem c5_malformed_length :
    (∀ input v k, decode input = .ok (v, k) → k ≤ input.length)
    ∧ (∀ n rest, n ≤ 15 → rest.length < n →
        decode ((128 + n) :: rest) = .error .needMoreInput)
    ∧ (∀ n rest, n ≤ 15 → rest.length < n →
        decode ((224 + n) :: rest) = .error .needMoreInput)
    ∧ (∀ M w, (M = 204 ∧ w = 1) ∨ (M = 205 ∧ w = 2) ∨ (M = 206 ∧ w = 4)
        ∨ (M = 208 ∧ w = 1) ∨ (M = 209 ∧ w = 2) ∨ (M = 210 ∧ w = 4) →
        ∀ rest, w ≤ rest.length → (rest.drop w).length < beJoin (rest.take w) →
        decode (M :: rest) = .error .needMoreInput) := by
  refine ⟨?_, ?_, ?_, ?_⟩
  · intro input v k h
    obtain ⟨-, hk, -, -⟩ := valueSpec depthLimit input v k h
    exact hk
  · intro n rest hn hlen
    unfold decode
    rw [decodeValue_tinyStr depthLimit n rest hn, if_neg (by omega)]
  · intro n rest hn hlen
    unfold decode
    rw [decodeValue_tinyBytes depthLimit n rest hn, if_neg (by omega)]
  · intro M w hMw rest hw hlen
    unfold decode
    rcases hMw with ⟨rfl, rfl⟩ | ⟨rfl, rfl⟩ | ⟨rfl, rfl⟩
      | ⟨rfl, rfl⟩ | ⟨rfl, rfl⟩ | ⟨rfl, rfl⟩
    · rw [decodeValue_bytes8, readSized_short 1 rest .bytes hw hlen]
    · rw [decodeValue_bytes16, readSized_short 2 rest .bytes hw hlen]
    · rw [decodeValue_bytes32, readSized_short 4 rest .bytes hw hlen]
    · rw [decodeValue_str8, readSized_short 1 rest .string hw hlen]
    · rw [decodeValue_str16, readSized_short 2 rest .string hw hlen]
    · rw [decodeValue_str32, readSized_short 4 rest .string hw hlen]

theorem c5_malformed_length_witness :
    decode ((128 + 5) :: [0, 0]) = .error .needMoreInput
    ∧ decode (208 :: [7, 0]) = .error .needMoreInput := by
  refine ⟨c5_malformed_length.2.1 5 [0, 0] (by decide) (by decide), ?_⟩
  exact c5_malformed_length.2.2.2 208 1 (by simp) [7, 0] (by decide) (by decide)

end PackStream

namespace PyBinding

/-- An opaque Python exception value raised by a fallible PyO3 operation. -/
def PyErr : Type := Nat

instance : DecidableEq PyErr := fun a b => instDecidableEqNat a b

/-- The modelled state of one Python module object: its current __name__
attribute and the heap indices passed to its add_submodule, in call order
(duplicates kept, as CPython's PyModule_AddObjectRef would record them). -/
structure PyModuleState where
  modName : String
  submods : List Nat
deriving DecidableEq

/-- The modelled interpreter state: a heap of module objects addressed by
index, and the sys.modules mapping from dotted names to heap indices. -/
structure PyState where
  heap : List PyModuleState
  sysModules : List (String × Nat)
deriving DecidableEq

/-- Default module object used by out-of-range heap reads. -/
def noMod : PyModuleState := ⟨"", []⟩

/-- Replace the module object at heap index i by f applied to it. -/
def heapModify (h : List PyModuleState) (i : Nat)
    (f : PyModuleState → PyModuleState) : List PyModuleState :=
  h.set i (f (h.getD i noMod))

/-- Update the binding of key k in an association list (Python dict item
assignment: overwrite in place if present, append otherwise). -/
def assocSet (l : List (String × Nat)) (k : String) (v : Nat) :
    List (String × Nat) :=
  match l with
  | [] => [(k, v)]
  | (k', v') :: rest => if k' = k then (k, v) :: rest else (k', v') :: assocSet rest k v

/-- Look up key k in an association list (Python dict read). -/
def assocGet (l : List (String × Nat)) (k : String) : Option Nat :=
  match l with
  | [] => none
  | (k', v') :: rest => if k' = k then some v' else assocGet rest k

/-- Every fallible PyO3 call is assigned a step number t; the oracle inj says
whether the t-th call raises (some e) or succeeds (none). PyModule::new_bound:
on success allocates a fresh module whose __name__ is the given name. -/
def pyModuleNewBound (inj : Nat → Option PyErr) (t : Nat) (st : PyState)
    (nm : String) : Except PyErr (Nat × PyState × Nat) :=
  match inj t with
  | some e => .error e
  | none => .ok (st.heap.length, ⟨st.heap ++ [⟨nm, []⟩], st.sysModules⟩, t + 1)

/-- Bound::name (PyModule_GetName): reads the module's current __name__. -/
def pyName (inj : Nat → Option PyErr) (t : Nat) (st : PyState) (m : Nat) :
    Except PyErr (String × PyState × Nat) :=
  match inj t with
  | some e => .error e
  | none => .ok ((st.heap.getD m noMod).modName, st, t + 1)

/-- PyModule::add_submodule: records the child on the parent module. -/
def pyAddSubmodule (inj : Nat → Option PyErr) (t : Nat) (st : PyState)
    (parent child : Nat) : Except PyErr (PyState × Nat) :=
  match inj t with
  | some e => .error e
  | none =>
    .ok (⟨heapModify st.heap parent (fun pm => ⟨pm.modName, pm.submods ++ [child]⟩),
      st.sysModules⟩, t + 1)

/-- setattr("__name__", nm) on the module at heap index m. -/
def pySetattrName (inj : Nat → Option PyErr) (t : Nat) (st : PyState)
    (m : Nat) (nm : String) : Except PyErr (PyState × Nat) :=
  match inj t with
  | some e => .error e
  | none =>
    .ok (⟨heapModify st.heap m (fun pm => ⟨nm, pm.submods⟩), st.sysModules⟩, t + 1)

/-- A fallible PyO3 call that leaves the modelled state unchanged — used for
py.import_bound("sys") and .getattr("modules"), whose results only feed the
subsequent set_item. -/
def pyStep (inj : Nat → Option PyErr) (t : Nat) (st : PyState) :
    Except PyErr (PyState × Nat) :=
  match inj t with
  | some e => .error e
  | none => .ok (st, t + 1)

/-- sys.modules.set_item(key, module at heap index m). -/
def pySetItem (inj : Nat → Option PyErr) (t : Nat) (st : PyState)
    (key : String) (m : Nat) : Except PyErr (PyState × Nat) :=
  match inj t with
  | some e => .error e
  | none => .ok (⟨st.heap, assocSet st.sysModules key m⟩, t + 1)

/-- make_module_in_package from lib.rs: the seven fallible PyO3 operations in
source order — PyModule::new_bound, parent.name() (inside the format! of the
full dotted name), parent.add_submodule, submodule.setattr("__name__", full),
py.import_bound("sys"), .getattr("modules"), .set_item(full, submodule) —
each ?-propagating its error, and on success returning the submodule. -/
def makeModuleInPackage (inj : Nat → Option PyErr) (t : Nat) (st : PyState)
    (parent : Nat) (name : String) : Except PyErr (Nat × PyState × Nat) :=
  match pyModuleNewBound inj t st name with
  | .error e => .error e
  | .ok (sub, st1, t1) =>
    match pyName inj t1 st1 parent with
    | .error e => .error e
    | .ok (pname, st2, t2) =>
      match pyAddSubmodule inj t2 st2 parent sub with
      | .error e => .error e
      | .ok (st3, t3) =>
        match pySetattrName inj t3 st3 sub (pname ++ "." ++ name) with
        | .error e => .error e
        | .ok (st4, t4) =>
          match pyStep inj t4 st4 with
          | .error e => .error e
          | .ok (st5, t5) =>
            match pyStep inj t5 st5 with
            | .error e => .error e
            | .ok (st6, t6) =>
              match pySetItem inj t6 st6 (pname ++ "." ++ name) sub with
              | .error e => .error e
              | .ok (st7, t7) => .ok (sub, st7, t7)

/-- codec::register from codec.rs: make_module_in_package(m, "packstream"),
then packstream::register (that function's body is not among the provided
sources; modelled from the spec as one fallible registration call that does
not touch the modelled module/sys.modules state), then m.add_submodule. -/
def codecRegister (inj : Nat → Option PyErr) (t : Nat) (st : PyState)
    (m : Nat) : Except PyErr (PyState × Nat) :=
  match makeModuleInPackage inj t st m "packstream" with
  | .error e => .error e
  | .ok (modPackstream, st1, t1) =>
    match pyStep inj t1 st1 with
    | .error e => .error e
    | .ok (st2, t2) =>
      match pyAddSubmodule inj t2 st2 m modPackstream with
      | .error e => .error e
      | .ok (st3, t3) => .ok (st3, t3)

/-- The #[pymodule] function packstream from lib.rs (Python name "_rust"):
make_module_in_package(m, "codec"), codec::register, m.add_submodule. -/
def packstreamInit (inj : Nat → Option PyErr) (t : Nat) (st : PyState)
    (m : Nat) : Except PyErr (PyState × Nat) :=
  match makeModuleInPackage inj t st m "codec" with
  | .error e => .error e
  | .ok (modCodec, st1, t1) =>
    match codecRegister inj t1 st1 modCodec with
    | .error e => .error e
    | .ok (st2, t2) =>
      match pyAddSubmodule inj t2 st2 m modCodec with
      | .error e => .error e
      | .ok (st3, t3) => .ok (st3, t3)

/-- The interpreter state in which CPython invokes the module function: one
module object already created under the extension's Python name "_rust". -/
def initState : PyState := ⟨[⟨"_rust", []⟩], []⟩

/-- The oracle-free result of a successful make_module_in_package. -/
def mipPure (st : PyState) (parent : Nat) (name : String) : Nat × PyState :=
  let sub := st.heap.length
  let h1 := st.heap ++ [⟨name, []⟩]
  let pname := (h1.getD parent noMod).modName
  let full := pname ++ "." ++ name
  let h3 := heapModify h1 parent (fun pm => ⟨pm.modName, pm.submods ++ [sub]⟩)
  let h4 := heapModify h3 sub (fun pm => ⟨full, pm.submods⟩)
  (sub, ⟨h4, assocSet st.sysModules full sub⟩)

/-- The oracle-free result of a successful codec::register. -/
def codecRegPure (st : PyState) (m : Nat) : PyState :=
  let r := mipPure st m "packstream"
  ⟨heapModify r.2.heap m (fun pm => ⟨pm.modName, pm.submods ++ [r.1]⟩),
    r.2.sysModules⟩

/-- The oracle-free result of a successful module initialization. -/
def initPure (st : PyState) (m : Nat) : PyState :=
  let r := mipPure st m "codec"
  let st2 := codecRegPure r.2 r.1
  ⟨heapModify st2.heap m (fun pm => ⟨pm.modName, pm.submods ++ [r.1]⟩),
    st2.sysModules⟩

theorem heapModify_length (h : List PyModuleState) (i : Nat)
    (f : PyModuleState → PyModuleState) : (heapModify h i f).length = h.length := by
  unfold heapModify
  exact List.length_set h i _

theorem heapModify_getD_self (h : List PyModuleState) (i : Nat)
    (f : PyModuleState → PyModuleState) (hi : i < h.length) :
    (heapModify h i f).getD i noMod = f (h.getD i noMod) := by
  unfold heapModify
  rw [List.getD_eq_getElem?_getD, List.getElem?_set_eq hi]
  rfl

theorem heapModify_getD_ne (h : List PyModuleState) (i j : Nat)
    (f : PyModuleState → PyModuleState) (hij : i ≠ j) :
    (heapModify h i f).getD j noMod = h.getD j noMod := by
  unfold heapModify
  rw [List.getD_eq_getElem?_getD, List.getElem?_set_ne hij,
    ← List.getD_eq_getElem?_getD]

theorem getD_append_left (l l' : List PyModuleState) (i : Nat)
    (hi : i < l.length) : (l ++ l').getD i noMod = l.getD i noMod := by
  rw [List.getD_eq_getElem?_getD, List.getElem?_append_left hi,
    ← List.getD_eq_getElem?_getD]

theorem assocGet_assocSet_self (l : List (String × Nat)) (k : String) (v : Nat) :
    assocGet (assocSet l k v) k = some v := by
  induction l with
  | nil => simp [assocSet, assocGet]
  | cons p rest ih =>
    obtain ⟨k', v'⟩ := p
    unfold assocSet
    by_cases hk : k' = k
    · rw [if_pos hk]
      unfold assocGet
      rw [if_pos rfl]
    · rw [if_neg hk]
      unfold assocGet
      rw [if_neg hk, ih]

theorem mip_ok (inj : Nat → Option PyErr) (t : Nat) (st : PyState)
    (parent : Nat) (name : String) (sub : Nat) (st' : PyState) (t' : Nat)
    (h : makeModuleInPackage inj t st parent name = .ok (sub, st', t')) :
    sub = (mipPure st parent name).1 ∧ st' = (mipPure st parent name).2
    ∧ t' = t + 7 ∧ ∀ u, t ≤ u → u < t + 7 → inj u = none := by
  unfold makeModuleInPackage pyModuleNewBound pyName pyAddSubmodule
    pySetattrName pyStep pySetItem at h
  cases hi0 : inj t with
  | some e => rw [hi0] at h; simp at h
  | none =>
  rw [hi0] at h
  simp only [] at h
  cases hi1 : inj (t + 1) with
  | some e => rw [hi1] at h; simp at h
  | none =>
  rw [hi1] at h
  simp only [] at h
  cases hi2 : inj (t + 1 + 1) with
  | some e => rw [hi2] at h; simp at h
  | none =>
  rw [hi2] at h
  simp only [] at h
  cases hi3 : inj (t + 1 + 1 + 1) with
  | some e => rw [hi3] at h; simp at h
  | none =>
  rw [hi3] at h
  simp only [] at h
  cases hi4 : inj (t + 1 + 1 + 1 + 1) with
  | some e => rw [hi4] at h; simp at h
  | none =>
  rw [hi4] at h
  simp only [] at h
  cases hi5 : inj (t + 1 + 1 + 1 + 1 + 1) with
  | some e => rw [hi5] at h; simp at h
  | none =>
  rw [hi5] at h
  simp only [] at h
  cases hi6 : inj (t + 1 + 1 + 1 + 1 + 1 + 1) with
  | some e => rw [hi6] at h; simp at h
  | none =>
  rw [hi6] at h
  simp only [Except.ok.injEq, Prod.mk.injEq] at h
  obtain ⟨rfl, rfl, rfl⟩ := h
  refine ⟨rfl, rfl, by omega, ?_⟩
  intro u hu1 hu2
  have hu : u = t ∨ u = t + 1 ∨ u = t + 1 + 1 ∨ u = t + 1 + 1 + 1
      ∨ u = t + 1 + 1 + 1 + 1 ∨ u = t + 1 + 1 + 1 + 1 + 1
      ∨ u = t + 1 + 1 + 1 + 1 + 1 + 1 := by omega
  rcases hu with rfl | rfl | rfl | rfl | rfl | rfl | rfl
  exacts [hi0, hi1, hi2, hi3, hi4, hi5, hi6]

theorem mip_clean (inj : Nat → Option PyErr) (t : Nat) (st : PyState)
    (parent : Nat) (name : String)
    (hc : ∀ u, t ≤ u → u < t + 7 → inj u = none) :
    makeModuleInPackage inj t st parent name
      = .ok ((mipPure st parent name).1, (mipPure st parent name).2, t + 7) := by
  unfold makeModuleInPackage pyModuleNewBound pyName pyAddSubmodule
    pySetattrName pyStep pySetItem
  rw [hc t (by omega) (by omega)]
  simp only []
  rw [hc (t + 1) (by omega) (by omega)]
  simp only []
  rw [hc (t + 1 + 1) (by omega) (by omega)]
  simp only []
  rw [hc (t + 1 + 1 + 1) (by omega) (by omega)]
  simp only []
  rw [hc (t + 1 + 1 + 1 + 1) (by omega) (by omega)]
  simp only []
  rw [hc (t + 1 + 1 + 1 + 1 + 1) (by omega) (by omega)]
  simp only []
  rw [hc (t + 1 + 1 + 1 + 1 + 1 + 1) (by omega) (by omega)]
  simp only []
  rfl

theorem mip_error (inj : Nat → Option PyErr) (t : Nat) (st : PyState)
    (parent : Nat) (name : String) (e : PyErr)
    (h : makeModuleInPackage inj t st parent name = .error e) :
    ∃ u, t ≤ u ∧ u < t + 7 ∧ inj u = some e
      ∧ ∀ u', t ≤ u' → u' < u → inj u' = none := by
  unfold makeModuleInPackage pyModuleNewBound pyName pyAddSubmodule
    pySetattrName pyStep pySetItem at h
  cases hi0 : inj t with
  | some e' =>
    rw [hi0] at h
    simp only [Except.error.injEq] at h
    subst h
    exact ⟨t, by omega, by omega, hi0, fun u' a b => absurd a (by omega)⟩
  | none =>
  rw [hi0] at h
  simp only [] at h
  cases hi1 : inj (t + 1) with
  | some e' =>
    rw [hi1] at h
    simp only [Except.error.injEq] at h
    subst h
    refine ⟨t + 1, by omega, by omega, hi1, fun u' a b => ?_⟩
    have hu : u' = t := by omega
    subst hu
    exact hi0
  | none =>
  rw [hi1] at h
  simp only [] at h
  cases hi2 : inj (t + 1 + 1) with
  | some e' =>
    rw [hi2] at h
    simp only [Except.error.injEq] at h
    subst h
    refine ⟨t + 1 + 1, by omega, by omega, hi2, fun u' a b => ?_⟩
    have hu : u' = t ∨ u' = t + 1 := by omega
    rcases hu with rfl | rfl
    exacts [hi0, hi1]
  | none =>
  rw [hi2] at h
  simp only [] at h
  cases hi3 : inj (t + 1 + 1 + 1) with
  | some e' =>
    rw [hi3] at h
    simp only [Except.error.injEq] at h
    subst h
    refine ⟨t + 1 + 1 + 1, by omega, by omega, hi3, fun u' a b => ?_⟩
    have hu : u' = t ∨ u' = t + 1 ∨ u' = t + 1 + 1 := by omega
    rcases hu with rfl | rfl | rfl
    exacts [hi0, hi1, hi2]
  | none =>
  rw [hi3] at h
  simp only [] at h
  cases hi4 : inj (t + 1 + 1 + 1 + 1) with
  | some e' =>
    rw [hi4] at h
    simp only [Except.error.injEq] at h
    subst h
    refine ⟨t + 1 + 1 + 1 + 1, by omega, by omega, hi4, fun u' a b => ?_⟩
    have hu : u' = t ∨ u' = t + 1 ∨ u' = t + 1 + 1 ∨ u' = t + 1 + 1 + 1 := by
      omega
    rcases hu with rfl | rfl | rfl | rfl
    exacts [hi0, hi1, hi2, hi3]
  | none =>
  rw [hi4] at h
  simp only [] at h
  cases hi5 : inj (t + 1 + 1 + 1 + 1 + 1) with
  | some e' =>
    rw [hi5] at h
    simp only [Except.error.injEq] at h
    subst h
    refine ⟨t + 1 + 1 + 1 + 1 + 1, by omega, by omega, hi5, fun u' a b => ?_⟩
    have hu : u' = t ∨ u' = t + 1 ∨ u' = t + 1 + 1 ∨ u' = t + 1 + 1 + 1
        ∨ u' = t + 1 + 1 + 1 + 1 := by omega
    rcases hu with rfl | rfl | rfl | rfl | rfl
    exacts [hi0, hi1, hi2, hi3, hi4]
  | none =>
  rw [hi5] at h
  simp only [] at h
  cases hi6 : inj (t + 1 + 1 + 1 + 1 + 1 + 1) with
  | some e' =>
    rw [hi6] at h
    simp only [Except.error.injEq] at h
    subst h
    refine ⟨t + 1 + 1 + 1 + 1 + 1 + 1, by omega, by omega, hi6,
      fun u' a b => ?_⟩
    have hu : u' = t ∨ u' = t + 1 ∨ u' = t + 1 + 1 ∨ u' = t + 1 + 1 + 1
        ∨ u' = t + 1 + 1 + 1 + 1 ∨ u' = t + 1 + 1 + 1 + 1 + 1 := by omega
    rcases hu with rfl | rfl | rfl | rfl | rfl | rfl
    exacts [hi0, hi1, hi2, hi3, hi4, hi5]
  | none =>
  rw [hi6] at h
  simp at h

theorem codecRegister_ok (inj : Nat → Option PyErr) (t : Nat) (st : PyState)
    (m : Nat) (st' : PyState) (t' : Nat)
    (h : codecRegister inj t st m = .ok (st', t')) :
    st' = codecRegPure st m ∧ t' = t + 9
    ∧ ∀ u, t ≤ u → u < t + 9 → inj u = none := by
  unfold codecRegister at h
  cases hm : makeModuleInPackage inj t st m "packstream" with
  | error e => rw [hm] at h; simp at h
  | ok r =>
  obtain ⟨sub, st1, t1⟩ := r
  rw [hm] at h
  simp only [] at h
  obtain ⟨rfl, rfl, rfl, hclean⟩ := mip_ok inj t st m "packstream" sub st1 t1 hm
  unfold pyStep pyAddSubmodule at h
  cases hi7 : inj (t + 7) with
  | some e => rw [hi7] at h; simp at h
  | none =>
  rw [hi7] at h
  simp only [] at h
  cases hi8 : inj (t + 7 + 1) with
  | some e => rw [hi8] at h; simp at h
  | none =>
  rw [hi8] at h
  simp only [Except.ok.injEq, Prod.mk.injEq] at h
  obtain ⟨rfl, rfl⟩ := h
  refine ⟨rfl, by omega, ?_⟩
  intro u hu1 hu2
  by_cases hu : u < t + 7
  · exact hclean u hu1 hu
  · have hu' : u = t + 7 ∨ u = t + 7 + 1 := by omega
    rcases hu' with rfl | rfl
    exacts [hi7, hi8]

theorem codecRegister_clean (inj : Nat → Option PyErr) (t : Nat) (st : PyState)
    (m : Nat) (hc : ∀ u, t ≤ u → u < t + 9 → inj u = none) :
    codecRegister inj t st m = .ok (codecRegPure st m, t + 9) := by
  unfold codecRegister
  rw [mip_clean inj t st m "packstream" (fun u a b => hc u a (by omega))]
  simp only []
  unfold pyStep
  rw [hc (t + 7) (by omega) (by omega)]
  simp only []
  unfold pyAddSubmodule
  rw [hc (t + 7 + 1) (by omega) (by omega)]
  simp only []
  rfl

theorem packstreamInit_ok (inj : Nat → Option PyErr) (t : Nat) (st : PyState)
    (m : Nat) (st' : PyState) (t' : Nat)
    (h : packstreamInit inj t st m = .ok (st', t')) :
    st' = initPure st m ∧ t' = t + 17
    ∧ ∀ u, t ≤ u → u < t + 17 → inj u = none := by
  unfold packstreamInit at h
  cases hm : makeModuleInPackage inj t st m "codec" with
  | error e => rw [hm] at h; simp at h
  | ok r =>
  obtain ⟨sub, st1, t1⟩ := r
  rw [hm] at h
  simp only [] at h
  obtain ⟨rfl, rfl, rfl, hclean1⟩ := mip_ok inj t st m "codec" sub st1 t1 hm
  cases hr : codecRegister inj (t + 7) (mipPure st m "codec").2
      (mipPure st m "codec").1 with
  | error e => rw [hr] at h; simp at h
  | ok r2 =>
  obtain ⟨st2, t2⟩ := r2
  rw [hr] at h
  simp only [] at h
  obtain ⟨rfl, rfl, hclean2⟩ :=
    codecRegister_ok inj (t + 7) (mipPure st m "codec").2
      (mipPure st m "codec").1 st2 t2 hr
  unfold pyAddSubmodule at h
  cases hi16 : inj (t + 7 + 9) with
  | some e => rw [hi16] at h; simp at h
  | none =>
  rw [hi16] at h
  simp only [Except.ok.injEq, Prod.mk.injEq] at h
  obtain ⟨rfl, rfl⟩ := h
  refine ⟨rfl, by omega, ?_⟩
  intro u hu1 hu2
  by_cases hu : u < t + 7
  · exact hclean1 u hu1 hu
  · by_cases hu' : u < t + 7 + 9
    · exact hclean2 u (by omega) hu'
    · have hu'' : u = t + 7 + 9 := by omega
      subst hu''
      exact hi16

theorem packstreamInit_clean (inj : Nat → Option PyErr) (t : Nat)
    (st : PyState) (m : Nat) (hc : ∀ u, t ≤ u → u < t + 17 → inj u = none) :
    packstreamInit inj t st m = .ok (initPure st m, t + 17) := by
  unfold packstreamInit
  rw [mip_clean inj t st m "codec" (fun u a b => hc u a (by omega))]
  simp only []
  rw [codecRegister_clean inj (t + 7) (mipPure st m "codec").2
    (mipPure st m "codec").1 (fun u a b => hc u (by omega) (by omega))]
  simp only []
  unfold pyAddSubmodule
  rw [hc (t + 7 + 9) (by omega) (by omega)]
  simp only []
  rfl

/-- C9: whenever make_module_in_package(parent, name) returns Ok(submodule),
the submodule's __name__ equals the parent's name joined with name by a
single dot, sys.modules maps that dotted full name to the returned
submodule, and the submodule has been appended to the parent's submodule
list; and whenever any of its seven fallible PyO3 operations fails, the
function propagates exactly the error of the first failing operation. -/
theorem c9_make_module_in_package :
    (∀ inj t st parent name sub st' t',
       parent < st.heap.length →
       makeModuleInPackage inj t st parent name = .ok (sub, st', t') →
       (st'.heap.getD sub noMod).modName
           = (st.heap.getD parent noMod).modName ++ "." ++ name
       ∧ assocGet st'.sysModules
           ((st.heap.getD parent noMod).modName ++ "." ++ name) = some sub
       ∧ (st'.heap.getD parent noMod).submods
           = (st.heap.getD parent noMod).submods ++ [sub])
    ∧ (∀ inj t st parent name e,
       makeModuleInPackage inj t st parent name = .error e →
       ∃ u, t ≤ u ∧ u < t + 7 ∧ inj u = some e
         ∧ ∀ u', t ≤ u' → u' < u → inj u' = none) := by
  constructor
  · intro inj t st parent name sub st' t' hp h
    obtain ⟨rfl, rfl, -, -⟩ := mip_ok inj t st parent name sub st' t' h
    simp only [mipPure]
    refine ⟨?_, ?_, ?_⟩
    · rw [heapModify_getD_self _ _ _ (by simp [heapModify_length])]
      simp only []
      rw [getD_append_left st.heap [⟨name, []⟩] parent hp]
    · rw [getD_append_left st.heap [⟨name, []⟩] parent hp]
      exact assocGet_assocSet_self _ _ _
    · rw [heapModify_getD_ne _ _ _ _ (by omega : st.heap.length ≠ parent),
        heapModify_getD_self _ _ _ (by simp; omega)]
      simp only []
      rw [getD_append_left st.heap [⟨name, []⟩] parent hp]
  · intro inj t st parent name e h
    exact mip_error inj t st parent name e h

theorem c9_make_module_in_package_witness :
    0 < initState.heap.length
    ∧ (((mipPure initState 0 "codec").2.heap.getD 1 noMod).modName
        = (initState.heap.getD 0 noMod).modName ++ "." ++ "codec"
      ∧ assocGet (mipPure initState 0 "codec").2.sysModules
          ((initState.heap.getD 0 noMod).modName ++ "." ++ "codec") = some 1
      ∧ ((mipPure initState 0 "codec").2.heap.getD 0 noMod).submods
        = (initState.heap.getD 0 noMod).submods ++ [1]) :=
  ⟨by decide,
    c9_make_module_in_package.1 (fun _ => none) 0 initState 0 "codec" 1
      (mipPure initState 0 "codec").2 7 (by decide) (by rfl)⟩

/-- C10: a successful initialization of the "_rust" extension module creates
exactly two further module objects — "codec" under the root and "packstream"
under codec (final heap of three modules with the dotted names recorded) —
appends each to its parent twice (once inside make_module_in_package, once
by the caller's add_submodule), records both dotted names in sys.modules,
and returns Ok exactly when all seventeen fallible steps succeed. -/
theorem c10_module_init :
    (∀ inj st' t', packstreamInit inj 0 initState 0 = .ok (st', t') →
       st'.heap.length = 3
       ∧ st'.heap.getD 0 noMod = ⟨"_rust", [1, 1]⟩
       ∧ st'.heap.getD 1 noMod = ⟨"_rust.codec", [2, 2]⟩
       ∧ st'.heap.getD 2 noMod = ⟨"_rust.codec.packstream", []⟩
       ∧ assocGet st'.sysModules "_rust.codec" = some 1
       ∧ assocGet st'.sysModules "_rust.codec.packstream" = some 2
       ∧ t' = 17 ∧ ∀ u, u < 17 → inj u = none)
    ∧ ∀ inj, (∀ u, u < 17 → inj u = none) →
       packstreamInit inj 0 initState 0 = .ok (initPure initState 0, 17) := by
  constructor
  · intro inj st' t' h
    obtain ⟨rfl, rfl, hclean⟩ := packstreamInit_ok inj 0 initState 0 st' t' h
    refine ⟨by decide, by decide, by decide, by decide, by decide, by decide,
      by decide, fun u hu => hclean u (by omega) (by omega)⟩
  · intro inj hc
    exact packstreamInit_clean inj 0 initState 0 (fun u a b => hc u (by omega))

theorem c10_module_init_witness :
    packstreamInit (fun _ => none) 0 initState 0
      = .ok (initPure initState 0, 17) :=
  c10_module_init.2 (fun _ => none) (fun u _ => rfl)

end PyBinding
